import Mathlib

/-!
# amazon-ecs-init: the container lifecycle manager (`ecs-init/docker/docker.go`)

A shallow embedding of `docker.go` and a verification of the statements its
specification makes about it.  The artifact cache (`cache.go`), of which only the
tests are at hand, is modelled from the specification in a section of its own.

Modelling conventions.

* A Go `string` is a list of Unicode code points (`Str`); the program only reads
  text files, splits them at the one-byte separators `\n` and `=` and trims
  Unicode white space, so on well-formed UTF-8 the code-point view and the byte
  view agree.
* A Go `map[string]string` is an association list with pairwise different keys
  (`GoMap`); `m[k] = v` is `GoMap.set`.  Go leaves the iteration order of a map
  unspecified: `range` is modelled by the order of the association list, and every
  statement about a ranged-over result only uses order-insensitive notions
  (membership, count, length, permutation, absence of duplicates).
* The container runtime and the file system are the two interfaces held by
  `Client`.  The runtime is an arbitrary state machine over a state type `σ`; every
  operation of `Client` threads that state and records the runtime calls it issues.
* The package-level configuration (`config.*`) is not part of the sources at hand;
  its path-valued functions are fields of the record `config`.
-/

namespace EcsInit

/-! ## Strings -/

/-- A Go string, as its sequence of code points. -/
abbrev Str := List Char

/-- Go `unicode.IsSpace`: the code points with the Unicode White_Space property. -/
def isSpace (r : Char) : Bool :=
  (0x09 ≤ r.toNat && r.toNat ≤ 0x0D) || r.toNat == 0x20 || r.toNat == 0x85 || r.toNat == 0xA0 ||
  r.toNat == 0x1680 || (0x2000 ≤ r.toNat && r.toNat ≤ 0x200A) || r.toNat == 0x2028 ||
  r.toNat == 0x2029 || r.toNat == 0x202F || r.toNat == 0x205F || r.toNat == 0x3000

/-- Go `strings.TrimSpace`: all leading and all trailing white space removed
(`TrimRightFunc (TrimLeftFunc s unicode.IsSpace) unicode.IsSpace`). -/
def TrimSpace (s : Str) : Str :=
  (s.dropWhile isSpace).rdropWhile isSpace

/-- Puts a character in front of the first piece of a split. -/
def consHead (c : Char) : List Str → List Str
  | [] => [[c]]
  | h :: t => (c :: h) :: t

/-- Puts a character behind the last piece of a split. -/
def snocLast : List Str → Char → List Str
  | [], x => [[x]]
  | [l], x => [l ++ [x]]
  | l :: m :: t, x => l :: snocLast (m :: t) x

/-- Go `strings.Split s sep` for a separator of one character (the program splits
at `"\n"` only): the pieces of `s` between the occurrences of `sep`; a string
without `sep`, also the empty one, is one piece. -/
def Split : Str → Char → List Str
  | [], _ => [[]]
  | c :: rest, sep => if c = sep then [] :: Split rest sep else consHead c (Split rest sep)

/-- Go `strings.SplitN s sep n` for a separator of one character and `n ≥ 0`: no
piece for `n = 0`, otherwise at most `n` pieces, the last one being the unsplit
remainder. -/
def SplitN : Str → Char → Nat → List Str
  | _, _, 0 => []
  | s, _, 1 => [s]
  | [], _, _ + 2 => [[]]
  | c :: rest, sep, n + 2 =>
    if c = sep then [] :: SplitN rest sep (n + 1) else consHead c (SplitN rest sep (n + 2))

/-- Go `strings.Join elems sep` for a separator of one character. -/
def Join : List Str → Char → Str
  | [], _ => []
  | [a], _ => a
  | a :: b :: t, sep => a ++ sep :: Join (b :: t) sep

/-! ## Maps -/

/-- A Go `map[string]string`: an association list whose keys are pairwise different. -/
abbrev GoMap := List (Str × Str)

/-- The map assignment `m[k] = v`: replaces the value of an existing key, adds the
key otherwise. -/
def GoMap.set : GoMap → Str → Str → GoMap
  | [], k, v => [(k, v)]
  | (k', v') :: rest, k, v =>
    if k' = k then (k, v) :: rest else (k', v') :: GoMap.set rest k v

/-- The map lookup `m[k]` with its presence flag. -/
def GoMap.get? : GoMap → Str → Option Str
  | [], _ => none
  | (k', v') :: rest, k => if k' = k then some v' else GoMap.get? rest k

/-- The keys of a map. -/
def GoMap.keys (m : GoMap) : List Str := m.map Prod.fst

/-- The assignments `m[k] = v` for the pairs of a list, one after the other. -/
def GoMap.setAll (m : GoMap) (kvs : List (Str × Str)) : GoMap :=
  kvs.foldl (fun m kv => m.set kv.1 kv.2) m

/-! ## The interfaces of `Client` -/

/-- A Go `error` value. -/
structure error where
  msg : String
deriving DecidableEq, Repr

/-- The package `config` as far as `docker.go` uses it: the values of its
path-valued functions and of the constant `AgentLogFile`. -/
structure config where
  AgentLogFile : Str
  AgentJSONConfigFile : Str
  CacheDirectory : Str
  AgentImageName : Str
  AgentConfigFile : Str
  DockerUnixSocket : Str
  LogDirectory : Str
  AgentDataDirectory : Str
  AgentConfigDirectory : Str
  CgroupDirectory : Str
  ExecDriverDirectory : Str
deriving DecidableEq, Repr

/-- Modelled from the spec: the constant `config.AgentContainerName`, declared in a
file that is not among the sources.  It is the fixed agent name; the comment of
`RemoveExistingAgentContainer` in `docker.go` and `validateCommonCreateContainerOptions`
in `docker_test.go` both give it as `ecs-agent`. -/
def config.AgentContainerName : Str := "ecs-agent".toList

/-- The interface `fileSystem`: `ReadFile` gives the content of a file or fails. -/
structure fileSystem where
  ReadFile : Str → Except error Str

/-- A `godocker.PortBinding`. -/
structure godocker.PortBinding where
  HostIP : Str
  HostPort : Str
deriving DecidableEq, Repr

/-- A `godocker.Config`, with the fields `docker.go` fills in. -/
structure godocker.Config where
  Env : List Str
  ExposedPorts : List Str
  Image : Str
deriving DecidableEq, Repr

/-- A `godocker.HostConfig`, with the fields `docker.go` fills in and the field
`CapAdd` (the added capabilities), which a composite literal that does not name it
leaves at its zero value, the empty slice. -/
structure godocker.HostConfig where
  Binds : List Str
  PortBindings : List (Str × List godocker.PortBinding)
  CapAdd : List Str := []
deriving DecidableEq, Repr

/-- The `godocker.CreateContainerOptions`. -/
structure godocker.CreateContainerOptions where
  Name : Str
  Config : godocker.Config
  HostConfig : godocker.HostConfig
deriving DecidableEq, Repr

/-- A `godocker.Container`, of which only the identifier is used. -/
structure godocker.Container where
  ID : Str
deriving DecidableEq, Repr

/-- The `godocker.ListImagesOptions`, of which `All` is set. -/
structure godocker.ListImagesOptions where
  All : Bool
deriving DecidableEq, Repr

/-- A `godocker.APIImages`, of which only the tags are used. -/
structure godocker.APIImages where
  RepoTags : List Str
deriving DecidableEq, Repr

/-- The `godocker.ListContainersOptions`, of which `All` and `Filters` are set. -/
structure godocker.ListContainersOptions where
  All : Bool
  Filters : List (Str × List Str)
deriving DecidableEq, Repr

/-- A `godocker.APIContainers`, of which the identifier and the names are used. -/
structure godocker.APIContainers where
  ID : Str
  Names : List Str
deriving DecidableEq, Repr

/-- The `godocker.RemoveContainerOptions`, of which `ID` and `Force` are set. -/
structure godocker.RemoveContainerOptions where
  ID : Str
  Force : Bool
deriving DecidableEq, Repr

/-- The calls of the container runtime that the operations of `Client` issue. -/
inductive Call where
  | CreateContainer (opts : godocker.CreateContainerOptions)
  | StartContainer (id : Str) (hostConfig : Option godocker.HostConfig)
  | WaitContainer (id : Str)
  | ListImages (opts : godocker.ListImagesOptions)
  | ListContainers (opts : godocker.ListContainersOptions)
  | RemoveContainer (opts : godocker.RemoveContainerOptions)
  | StopContainer (id : Str) (timeout : Nat)
deriving DecidableEq, Repr

/-- The part of the interface `dockerclient` that the modelled operations drive, over
a runtime with states `σ`: every call returns its Go results and the next state. -/
structure dockerclient (σ : Type) where
  CreateContainer : godocker.CreateContainerOptions → σ → Except error godocker.Container × σ
  StartContainer : Str → Option godocker.HostConfig → σ → Option error × σ
  WaitContainer : Str → σ → (Int × Option error) × σ
  ListImages : godocker.ListImagesOptions → σ → Except error (List godocker.APIImages) × σ
  ListContainers :
    godocker.ListContainersOptions → σ → Except error (List godocker.APIContainers) × σ
  RemoveContainer : godocker.RemoveContainerOptions → σ → Option error × σ
  StopContainer : Str → Nat → σ → Option error × σ

/-- The `Client`: the runtime and the file system, and the package configuration
that the Go code reads from package `config`. -/
structure Client (σ : Type) where
  docker : dockerclient σ
  fs : fileSystem
  cfg : config

/-! ## The constants of `docker.go` -/

def agentIntrospectionPort : Str := "51678".toList

def logDir : Str := "/log".toList

def dataDir : Str := "/data".toList

def execDriverDir : Str := "/var/lib/docker/execdriver".toList

def readOnly : Str := ":ro".toList

def defaultDockerEndpoint : Str := "/var/run/docker.sock".toList

/-! ## The operations of `docker.go` -/

/-- The body of the loop of `loadEnvVariables` for one line: a line whose trimmed
form splits at its first `=` into two parts is stored, any other line is skipped. -/
def loadEnvVariables.line (envVariables : GoMap) (line : Str) : GoMap :=
  match SplitN (TrimSpace line) '=' 2 with
  | [key, value] => envVariables.set key value
  | _ => envVariables

/-- The pair a line of an override file stands for, when it stands for one: the
two parts of its trimmed form around the first `=`. -/
def loadEnvVariables.entry (line : Str) : Option (Str × Str) :=
  match SplitN (TrimSpace line) '=' 2 with
  | [key, value] => some (key, value)
  | _ => none

/-- `Client.loadEnvVariables`: the `KEY=VALUE` lines of the file
`config.AgentConfigFile()` as a map; the empty map when the file cannot be read. -/
def loadEnvVariables {σ : Type} (c : Client σ) : GoMap :=
  match c.fs.ReadFile c.cfg.AgentConfigFile with
  | .error _ => []
  | .ok file => (Split (TrimSpace file) '\n').foldl loadEnvVariables.line []

/-- The map literal that opens `getContainerConfig`: the default environment
variables. -/
def getContainerConfig.defaults (cfg : config) : GoMap :=
  [ ("ECS_LOGFILE".toList, logDir ++ "/".toList ++ cfg.AgentLogFile),
    ("ECS_DATADIR".toList, dataDir),
    ("ECS_AGENT_CONFIG_FILE_PATH".toList, cfg.AgentJSONConfigFile),
    ("ECS_UPDATE_DOWNLOAD_DIR".toList, cfg.CacheDirectory),
    ("ECS_UPDATES_ENABLED".toList, "true".toList),
    ("ECS_AVAILABLE_LOGGING_DRIVERS".toList, "[\"json-file\",\"syslog\"]".toList) ]

/-- The local variable `envVariables` of `getContainerConfig` after its first loop:
the defaults with the variables of the file merged in. -/
def getContainerConfig.envVariables {σ : Type} (c : Client σ) : GoMap :=
  (loadEnvVariables c).foldl (fun envVariables kv => envVariables.set kv.1 kv.2)
    (getContainerConfig.defaults c.cfg)

/-- `Client.getContainerConfig`. -/
def getContainerConfig {σ : Type} (c : Client σ) : godocker.Config :=
  { Env := (getContainerConfig.envVariables c).map (fun kv => kv.1 ++ "=".toList ++ kv.2)
    ExposedPorts := [agentIntrospectionPort ++ "/tcp".toList]
    Image := c.cfg.AgentImageName }

/-- `Client.getHostConfig`. -/
def getHostConfig {σ : Type} (c : Client σ) : godocker.HostConfig :=
  { Binds :=
      [ c.cfg.DockerUnixSocket ++ ":".toList ++ defaultDockerEndpoint,
        c.cfg.LogDirectory ++ ":".toList ++ logDir,
        c.cfg.AgentDataDirectory ++ ":".toList ++ dataDir,
        c.cfg.AgentConfigDirectory ++ ":".toList ++ c.cfg.AgentConfigDirectory,
        c.cfg.CacheDirectory ++ ":".toList ++ c.cfg.CacheDirectory,
        c.cfg.CgroupDirectory ++ ":".toList ++ c.cfg.CgroupDirectory ++ readOnly,
        c.cfg.ExecDriverDirectory ++ ":".toList ++ execDriverDir ++ readOnly ]
    PortBindings :=
      [ (agentIntrospectionPort ++ "/tcp".toList,
          [ { HostIP := "127.0.0.1".toList, HostPort := agentIntrospectionPort } ]) ] }

/-- The outcome of a run of `StartAgent`: the Go results, the runtime calls issued,
in order, and the state the runtime is left in. -/
structure StartAgent.Outcome (σ : Type) where
  exitCode : Int
  err : Option error
  calls : List Call
  state : σ

/-- The options `StartAgent` passes to `CreateContainer`. -/
def StartAgent.opts {σ : Type} (c : Client σ) : godocker.CreateContainerOptions :=
  { Name := config.AgentContainerName
    Config := getContainerConfig c
    HostConfig := getHostConfig c }

/-- `Client.StartAgent`, run on the runtime state `s`. -/
def StartAgent {σ : Type} (c : Client σ) (s : σ) : StartAgent.Outcome σ :=
  match c.docker.CreateContainer (StartAgent.opts c) s with
  | (.error err, s1) =>
    { exitCode := 0, err := some err, calls := [Call.CreateContainer (StartAgent.opts c)],
      state := s1 }
  | (.ok container, s1) =>
    match c.docker.StartContainer container.ID none s1 with
    | (some err, s2) =>
      { exitCode := 0, err := some err,
        calls := [Call.CreateContainer (StartAgent.opts c),
                  Call.StartContainer container.ID none],
        state := s2 }
    | (none, s2) =>
      match c.docker.WaitContainer container.ID s2 with
      | ((exitCode, err), s3) =>
        { exitCode := exitCode, err := err,
          calls := [Call.CreateContainer (StartAgent.opts c),
                    Call.StartContainer container.ID none,
                    Call.WaitContainer container.ID],
          state := s3 }

/-- The outcome of a run of an operation of `Client`: the Go results, the runtime
calls issued, in order, and the state the runtime is left in. -/
structure Outcome (σ α : Type) where
  result : α
  calls : List Call
  state : σ

/-- The inner loop of `IsAgentImageLoaded`: whether a tag of the image equals the
agent image name; the loop returns at the first such tag. -/
def IsAgentImageLoaded.repoTags (agentImageName : Str) : List Str → Bool
  | [] => false
  | repoTag :: rest =>
    if repoTag = agentImageName then true else IsAgentImageLoaded.repoTags agentImageName rest

/-- The outer loop of `IsAgentImageLoaded`, over the listed images. -/
def IsAgentImageLoaded.images (agentImageName : Str) : List godocker.APIImages → Bool
  | [] => false
  | image :: rest =>
    if IsAgentImageLoaded.repoTags agentImageName image.RepoTags then true
    else IsAgentImageLoaded.images agentImageName rest

/-- `Client.IsAgentImageLoaded`, run on the runtime state `s`; the result is the pair
`(bool, error)`. -/
def IsAgentImageLoaded {σ : Type} (c : Client σ) (s : σ) : Outcome σ (Bool × Option error) :=
  match c.docker.ListImages { All := true } s with
  | (.error err, s1) =>
    { result := (false, some err), calls := [Call.ListImages { All := true }], state := s1 }
  | (.ok images, s1) =>
    { result := (IsAgentImageLoaded.images c.cfg.AgentImageName images, none),
      calls := [Call.ListImages { All := true }], state := s1 }

/-- The options `findAgentContainer` passes to `ListContainers`. -/
def findAgentContainer.opts : godocker.ListContainersOptions :=
  { All := true, Filters := [("status".toList, [])] }

/-- The inner loop of `findAgentContainer`: whether a name of the container equals
`agentContainerName`; the loop returns at the first such name. -/
def findAgentContainer.names (agentContainerName : Str) : List Str → Bool
  | [] => false
  | name :: rest =>
    if name = agentContainerName then true else findAgentContainer.names agentContainerName rest

/-- The outer loop of `findAgentContainer`: the identifier of the first listed
container with a name equal to `agentContainerName`, the empty string when the loop
runs to its end. -/
def findAgentContainer.containers (agentContainerName : Str) :
    List godocker.APIContainers → Str
  | [] => []
  | container :: rest =>
    if findAgentContainer.names agentContainerName container.Names then container.ID
    else findAgentContainer.containers agentContainerName rest

/-- `Client.findAgentContainer`, run on the runtime state `s`; the result is the pair
`(string, error)`. -/
def findAgentContainer {σ : Type} (c : Client σ) (s : σ) : Outcome σ (Str × Option error) :=
  match c.docker.ListContainers findAgentContainer.opts s with
  | (.error err, s1) =>
    { result := ([], some err), calls := [Call.ListContainers findAgentContainer.opts],
      state := s1 }
  | (.ok containers, s1) =>
    { result :=
        (findAgentContainer.containers ("/".toList ++ config.AgentContainerName) containers,
          none),
      calls := [Call.ListContainers findAgentContainer.opts], state := s1 }

/-- `Client.RemoveExistingAgentContainer`, run on the runtime state `s`. -/
def RemoveExistingAgentContainer {σ : Type} (c : Client σ) (s : σ) :
    Outcome σ (Option error) :=
  match findAgentContainer c s with
  | { result := (_, some err), calls := calls, state := s1 } =>
    { result := some err, calls := calls, state := s1 }
  | { result := (containerToRemove, none), calls := calls, state := s1 } =>
    if containerToRemove = [] then { result := none, calls := calls, state := s1 }
    else
      match c.docker.RemoveContainer { ID := containerToRemove, Force := true } s1 with
      | (err, s2) =>
        { result := err,
          calls := calls ++ [Call.RemoveContainer { ID := containerToRemove, Force := true }],
          state := s2 }

/-- `Client.StopAgent`, run on the runtime state `s`. -/
def StopAgent {σ : Type} (c : Client σ) (s : σ) : Outcome σ (Option error) :=
  match findAgentContainer c s with
  | { result := (_, some err), calls := calls, state := s1 } =>
    { result := some err, calls := calls, state := s1 }
  | { result := (id, none), calls := calls, state := s1 } =>
    if id = [] then { result := none, calls := calls, state := s1 }
    else
      match c.docker.StopContainer id 10 s1 with
      | (err, s2) =>
        { result := err, calls := calls ++ [Call.StopContainer id 10], state := s2 }

/-! ## Notions of the specification -/

/-- The entry `KEY=VALUE` of a container environment. -/
def envEntry (key value : Str) : Str := key ++ "=".toList ++ value

/-- An override file sets `key` to `value`: one of its lines reads `key=value` once
trimmed, `=` does not occur in `key`, and no later line starts, once trimmed, with
`key=`. -/
def OverrideFile.sets (file key value : Str) : Prop :=
  ∃ (before : List Str) (line : Str) (after : List Str),
    Split file '\n' = before ++ line :: after ∧
    TrimSpace line = envEntry key value ∧ '=' ∉ key ∧
    ∀ later ∈ after, ¬ (key ++ "=".toList) <+: TrimSpace later

/-! ## Concrete clients -/

/-- The paths of a usual installation. -/
def exampleConfig : config :=
  { AgentLogFile := "ecs-agent.log".toList
    AgentJSONConfigFile := "/etc/ecs/ecs.config.json".toList
    CacheDirectory := "/var/cache/ecs".toList
    AgentImageName := "amazon/amazon-ecs-agent:latest".toList
    AgentConfigFile := "/etc/ecs/ecs.config".toList
    DockerUnixSocket := "/var/run/docker.sock".toList
    LogDirectory := "/var/log/ecs".toList
    AgentDataDirectory := "/var/lib/ecs/data".toList
    AgentConfigDirectory := "/etc/ecs".toList
    CgroupDirectory := "/sys/fs/cgroup".toList
    ExecDriverDirectory := "/var/run/docker/execdriver".toList }

/-- The path of the instance-level override file of a usual installation; `docker.go`
never names it. -/
def exampleInstanceConfigFile : Str := "/var/lib/ecs/ecs.config".toList

/-- A file system that holds the listed files and no other. -/
def filesOf (files : List (Str × Str)) : fileSystem :=
  { ReadFile := fun path =>
      match GoMap.get? files path with
      | some content => .ok content
      | none => .error { msg := "not found" } }

/-- A runtime without state that gives the same answers to every call, like the
mocks of `docker_test.go`. -/
def fixedDocker (create : Except error godocker.Container) (start : Option error)
    (wait : Int × Option error) : dockerclient Unit :=
  { CreateContainer := fun _ s => (create, s)
    StartContainer := fun _ _ s => (start, s)
    WaitContainer := fun _ s => (wait, s)
    ListImages := fun _ s => (.ok [], s)
    ListContainers := fun _ s => (.ok [], s)
    RemoveContainer := fun _ s => (none, s)
    StopContainer := fun _ _ s => (none, s) }

/-- The client of a usual installation over the given files and runtime answers. -/
def exampleClient (files : List (Str × Str)) (create : Except error godocker.Container)
    (start : Option error) (wait : Int × Option error) : Client Unit :=
  { docker := fixedDocker create start wait
    fs := filesOf files
    cfg := exampleConfig }

/-- The client of a usual installation over the given files, on a runtime where the
container `container id` is created, started and exits with code 0. -/
def exampleClientOf (files : List (Str × Str)) : Client Unit :=
  exampleClient files (.ok { ID := "container id".toList }) none (0, none)

/-- A runtime without state that gives the same listings and the same answers to
`RemoveContainer` and `StopContainer` at every call. -/
def listingDocker (images : Except error (List godocker.APIImages))
    (containers : Except error (List godocker.APIContainers))
    (remove stop : Option error) : dockerclient Unit :=
  { CreateContainer := fun _ s => (.ok { ID := "container id".toList }, s)
    StartContainer := fun _ _ s => (none, s)
    WaitContainer := fun _ s => ((0, none), s)
    ListImages := fun _ s => (images, s)
    ListContainers := fun _ s => (containers, s)
    RemoveContainer := fun _ s => (remove, s)
    StopContainer := fun _ _ s => (stop, s) }

/-- The client of a usual installation, without override files, over a runtime with
the given listings and answers. -/
def listingClient (images : Except error (List godocker.APIImages))
    (containers : Except error (List godocker.APIContainers))
    (remove stop : Option error) : Client Unit :=
  { docker := listingDocker images containers remove stop
    fs := filesOf []
    cfg := exampleConfig }

/-- The usual installation with the runtime socket at another path. -/
def otherSocketConfig : config :=
  { exampleConfig with DockerUnixSocket := "/run/user/1000/docker.sock".toList }

/-- The client of the installation `otherSocketConfig`, without override files. -/
def otherSocketClient : Client Unit :=
  { docker := fixedDocker (.ok { ID := "container id".toList }) none (0, none)
    fs := filesOf []
    cfg := otherSocketConfig }

/-! ## The artifact cache (package `cache`)

The file `cache.go` is not among the sources; `cache_test.go` is.  The definitions of
this section are modelled from the specification. -/

/-- Modelled from the spec: the values that `cache.go`, which is missing from the
sources, reads from package `config`: the cache directory, the status file and the
artifact file in it, and the keys of the artifact and of its detached checksum in the
remote object store. -/
structure cache.config where
  CacheDirectory : Str
  CacheState : Str
  AgentTarball : Str
  AgentRemoteTarballKey : Str
  AgentRemoteTarballSHA256Key : Str
deriving DecidableEq, Repr

/-- Modelled from the spec: the calls that the operations of the cache, missing from
the sources, issue to their file system and to the remote object store.  `Open` stands
for opening a file and reading its full contents, `Copy` for the stream copy of a file
into the digest writer. -/
inductive cache.Call where
  | Stat (path : Str)
  | Open (path : Str)
  | MkdirAll (path : Str)
  | downloadFile (key : Str)
  | Remove (path : Str)
  | Copy (path : Str)
  | Rename (oldpath newpath : Str)
deriving DecidableEq, Repr

/-- Modelled from the spec: the file-system interface of `cache.go`, which is missing
from the sources, over a file system with states `σ`.  `Stat` gives the size of a file,
`Open` its full contents, `Copy` the bytes streamed out of it. -/
structure cache.fileSystem (σ : Type) where
  Stat : Str → σ → Except error Nat × σ
  Open : Str → σ → Except error Str × σ
  MkdirAll : Str → σ → Option error × σ
  Remove : Str → σ → Option error × σ
  Copy : Str → σ → Except error Str × σ
  Rename : Str → Str → σ → Option error × σ

/-- Modelled from the spec: the `Downloader` of `cache.go`, which is missing from the
sources: its file system, the remote object store collaborator
`downloadFile(key) -> (localPath, error)`, the hex-encoded SHA-256 digest of a byte
sequence (the cryptographic library), and the configuration. -/
structure cache.Downloader (σ : Type) where
  fs : cache.fileSystem σ
  downloadFile : Str → σ → Except error Str × σ
  hexSHA256 : Str → Str
  cfg : cache.config

/-- Modelled from the spec: the outcome of a run of an operation of the cache, missing
from the sources: its result, the calls issued, in order, and the state left. -/
structure cache.Outcome (σ α : Type) where
  result : α
  calls : List cache.Call
  state : σ

/-- Modelled from the spec: the error of step 7 of the download protocol of
`DownloadAgent`, missing from the sources: the distinct "integrity" failure. -/
def cache.integrityError : error := { msg := "mismatched checksum" }

/-- Modelled from the spec: the cleanup of `DownloadAgent`, missing from the sources,
after a failure: the temporary artifact is removed if it still exists. -/
def cache.DownloadAgent.cleanup {σ : Type} (d : cache.Downloader σ) (temp : Str) (s : σ) :
    List cache.Call × σ :=
  match d.fs.Stat temp s with
  | (.error _, s1) => ([cache.Call.Stat temp], s1)
  | (.ok _, s1) => ([cache.Call.Stat temp, cache.Call.Remove temp], (d.fs.Remove temp s1).2)

/-- Modelled from the spec: steps 6 to 8 of the download protocol of `DownloadAgent`,
missing from the sources, for the expected checksum string and the downloaded temporary
artifact.  The artifact is stream-copied while its digest is computed; a copy failure
aborts and removes the temporary artifact if it still exists.  The hex digest is compared
with the expected checksum string, which may end in a newline; a mismatch aborts,
removes the temporary artifact and is the integrity failure.  On a match the temporary
artifact is renamed to the fixed artifact path, and the temporary path is then probed;
a failing rename is reported after the cleanup. -/
def cache.DownloadAgent.install {σ : Type} (d : cache.Downloader σ) (expected temp : Str)
    (s : σ) : cache.Outcome σ (Option error) :=
  match d.fs.Copy temp s with
  | (.error err, s1) =>
    { result := some err,
      calls := cache.Call.Copy temp :: (cache.DownloadAgent.cleanup d temp s1).1,
      state := (cache.DownloadAgent.cleanup d temp s1).2 }
  | (.ok bytes, s1) =>
    if expected = d.hexSHA256 bytes ∨ expected = d.hexSHA256 bytes ++ "\n".toList then
      match d.fs.Rename temp d.cfg.AgentTarball s1 with
      | (some err, s2) =>
        { result := some err,
          calls := cache.Call.Copy temp :: cache.Call.Rename temp d.cfg.AgentTarball ::
            (cache.DownloadAgent.cleanup d temp s2).1,
          state := (cache.DownloadAgent.cleanup d temp s2).2 }
      | (none, s2) =>
        { result := none,
          calls := [cache.Call.Copy temp, cache.Call.Rename temp d.cfg.AgentTarball,
            cache.Call.Stat temp],
          state := (d.fs.Stat temp s2).2 }
    else
      { result := some cache.integrityError,
        calls := [cache.Call.Copy temp, cache.Call.Remove temp],
        state := (d.fs.Remove temp s1).2 }

/-- Modelled from the spec: `DownloadAgent`, missing from the sources, with the steps of
its download protocol.  (1) The cache directory is created; a failure aborts.  (2) The
choice of the bucket partition only selects the remote endpoint and is part of
`downloadFile`.  (3) The detached checksum is downloaded to a temporary file; a failure
aborts.  (4) The checksum file is read in full as the expected checksum string and
removed whatever the outcome of the read; a read failure aborts.  (5) The artifact is
downloaded to a second temporary file; a failure aborts.  (6 to 8) See
`cache.DownloadAgent.install`. -/
def cache.DownloadAgent {σ : Type} (d : cache.Downloader σ) (s : σ) :
    cache.Outcome σ (Option error) :=
  match d.fs.MkdirAll d.cfg.CacheDirectory s with
  | (some err, s1) =>
    { result := some err, calls := [cache.Call.MkdirAll d.cfg.CacheDirectory], state := s1 }
  | (none, s1) =>
    match d.downloadFile d.cfg.AgentRemoteTarballSHA256Key s1 with
    | (.error err, s2) =>
      { result := some err,
        calls := [cache.Call.MkdirAll d.cfg.CacheDirectory,
          cache.Call.downloadFile d.cfg.AgentRemoteTarballSHA256Key],
        state := s2 }
    | (.ok tempChecksum, s2) =>
      match d.fs.Open tempChecksum s2 with
      | (.error err, s3) =>
        { result := some err,
          calls := [cache.Call.MkdirAll d.cfg.CacheDirectory,
            cache.Call.downloadFile d.cfg.AgentRemoteTarballSHA256Key,
            cache.Call.Open tempChecksum, cache.Call.Remove tempChecksum],
          state := (d.fs.Remove tempChecksum s3).2 }
      | (.ok expected, s3) =>
        match d.downloadFile d.cfg.AgentRemoteTarballKey (d.fs.Remove tempChecksum s3).2 with
        | (.error err, s5) =>
          { result := some err,
            calls := [cache.Call.MkdirAll d.cfg.CacheDirectory,
              cache.Call.downloadFile d.cfg.AgentRemoteTarballSHA256Key,
              cache.Call.Open tempChecksum, cache.Call.Remove tempChecksum,
              cache.Call.downloadFile d.cfg.AgentRemoteTarballKey],
            state := s5 }
        | (.ok temp, s5) =>
          { result := (cache.DownloadAgent.install d expected temp s5).result,
            calls := [cache.Call.MkdirAll d.cfg.CacheDirectory,
              cache.Call.downloadFile d.cfg.AgentRemoteTarballSHA256Key,
              cache.Call.Open tempChecksum, cache.Call.Remove tempChecksum,
              cache.Call.downloadFile d.cfg.AgentRemoteTarballKey] ++
              (cache.DownloadAgent.install d expected temp s5).calls,
            state := (cache.DownloadAgent.install d expected temp s5).state }

theorem eqSign_toList : "=".toList = ['='] := rfl

theorem consHead_ne_nil (c : Char) (L : List Str) : consHead c L ≠ [] := by
  cases L <;> simp [consHead]

theorem Split_ne_nil (s : Str) (sep : Char) : Split s sep ≠ [] := by
  cases s with
  | nil => simp [Split]
  | cons c rest =>
    by_cases h : c = sep
    · simp [Split, h]
    · simp [Split, h, consHead_ne_nil]

theorem Split_not_mem (s : Str) (sep : Char) : ∀ l ∈ Split s sep, sep ∉ l := by
  induction s with
  | nil => simp [Split]
  | cons c rest ih =>
    intro l hl
    by_cases h : c = sep
    · simp only [Split, h, if_true, List.mem_cons] at hl
      rcases hl with rfl | hl
      · simp
      · exact ih l hl
    · simp only [Split, h, if_false] at hl
      cases hs : Split rest sep with
      | nil => exact absurd hs (Split_ne_nil rest sep)
      | cons a t =>
        rw [hs] at hl ih
        simp only [consHead, List.mem_cons] at hl
        rcases hl with rfl | hl
        · intro hmem
          rcases List.mem_cons.1 hmem with h1 | h1
          · exact h h1.symm
          · exact ih a (List.mem_cons_self _ _) h1
        · exact ih l (List.mem_cons_of_mem _ hl)

theorem Split_of_not_mem (s : Str) (sep : Char) (h : sep ∉ s) : Split s sep = [s] := by
  induction s with
  | nil => rfl
  | cons c rest ih =>
    have hc : c ≠ sep := fun e => h (e ▸ List.mem_cons_self _ _)
    have hr : sep ∉ rest := fun e => h (List.mem_cons_of_mem _ e)
    simp [Split, hc, ih hr, consHead]

theorem Split_append_sep (a r : Str) (sep : Char) (h : sep ∉ a) :
    Split (a ++ sep :: r) sep = a :: Split r sep := by
  induction a with
  | nil => simp [Split]
  | cons c rest ih =>
    have hc : c ≠ sep := fun e => h (e ▸ List.mem_cons_self _ _)
    have hr : sep ∉ rest := fun e => h (List.mem_cons_of_mem _ e)
    simp [Split, hc, ih hr, consHead]

theorem Split_Join (ls : List Str) (sep : Char) (hne : ls ≠ []) (h : ∀ l ∈ ls, sep ∉ l) :
    Split (Join ls sep) sep = ls := by
  induction ls with
  | nil => exact absurd rfl hne
  | cons a t ih =>
    cases t with
    | nil => exact Split_of_not_mem a sep (h a (List.mem_cons_self _ _))
    | cons b t =>
      have hb := ih (by simp) (fun l hl => h l (List.mem_cons_of_mem _ hl))
      simp only [Join]
      rw [Split_append_sep _ _ _ (h a (List.mem_cons_self _ _)), hb]

theorem Split_snoc (xs : Str) (x sep : Char) :
    Split (xs ++ [x]) sep =
      if x = sep then Split xs sep ++ [[]] else snocLast (Split xs sep) x := by
  induction xs with
  | nil =>
    by_cases h : x = sep <;> simp [Split, h, consHead, snocLast]
  | cons c rest ih =>
    rw [List.cons_append]
    simp only [Split]
    rw [ih]
    cases hs : Split rest sep with
    | nil => exact absurd hs (Split_ne_nil rest sep)
    | cons a t =>
      by_cases hc : c = sep <;> by_cases h : x = sep <;> cases t <;>
        simp [hc, h, consHead, snocLast]

theorem TrimSpace_nil : TrimSpace [] = [] := rfl

theorem TrimSpace_cons_space (x : Char) (l : Str) (hx : isSpace x = true) :
    TrimSpace (x :: l) = TrimSpace l := by
  simp [TrimSpace, List.dropWhile, hx]

theorem TrimSpace_snoc_space (x : Char) (l : Str) (hx : isSpace x = true) :
    TrimSpace (l ++ [x]) = TrimSpace l := by
  induction l with
  | nil => simp [TrimSpace, List.dropWhile, hx, List.rdropWhile]
  | cons y l ih =>
    by_cases hy : isSpace y = true
    · rw [List.cons_append, TrimSpace_cons_space _ _ hy, TrimSpace_cons_space _ _ hy, ih]
    · have e1 : (y :: l ++ [x]).dropWhile isSpace = (y :: l) ++ [x] := by
        simp [List.dropWhile, hy]
      have e2 : (y :: l).dropWhile isSpace = y :: l := by
        simp [List.dropWhile, hy]
      unfold TrimSpace
      rw [e1, e2, List.rdropWhile_concat]
      simp [hx]

theorem SplitN_two_append (k v : Str) (sep : Char) (h : sep ∉ k) :
    SplitN (k ++ sep :: v) sep 2 = [k, v] := by
  induction k with
  | nil => simp [SplitN]
  | cons c rest ih =>
    have hc : c ≠ sep := fun e => h (e ▸ List.mem_cons_self _ _)
    have hr : sep ∉ rest := fun e => h (List.mem_cons_of_mem _ e)
    simp [SplitN, hc, ih hr, consHead]

theorem SplitN_two_of_not_mem (s : Str) (sep : Char) (h : sep ∉ s) :
    SplitN s sep 2 = [s] := by
  induction s with
  | nil => rfl
  | cons c rest ih =>
    have hc : c ≠ sep := fun e => h (e ▸ List.mem_cons_self _ _)
    have hr : sep ∉ rest := fun e => h (List.mem_cons_of_mem _ e)
    simp [SplitN, hc, ih hr, consHead]

theorem SplitN_two_eq_pair (s k v : Str) (sep : Char) (h : SplitN s sep 2 = [k, v]) :
    s = k ++ sep :: v ∧ sep ∉ k := by
  induction s generalizing k with
  | nil => simp [SplitN] at h
  | cons c rest ih =>
    by_cases hc : c = sep
    · simp only [SplitN, hc, if_true] at h
      simp only [List.cons.injEq, and_true] at h
      obtain ⟨rfl, h2⟩ := h
      have h3 : rest = v := by simpa [SplitN] using h2
      simp [hc, h3]
    · simp only [SplitN, hc, if_false] at h
      cases hs : SplitN rest sep 2 with
      | nil => rw [hs] at h; simp [consHead] at h
      | cons a t =>
        rw [hs] at h
        simp only [consHead, List.cons.injEq] at h
        obtain ⟨rfl, rfl⟩ := h
        obtain ⟨e, hn⟩ := ih a hs
        refine ⟨by rw [e]; simp, ?_⟩
        intro hmem
        rcases List.mem_cons.1 hmem with h1 | h1
        · exact hc h1.symm
        · exact hn h1

/-! ## Lemmas on maps -/

theorem GoMap.get?_set (m : GoMap) (k v k' : Str) :
    (m.set k v).get? k' = if k = k' then some v else m.get? k' := by
  induction m with
  | nil => simp [GoMap.set, GoMap.get?]
  | cons p rest ih =>
    obtain ⟨a, b⟩ := p
    by_cases h : a = k
    · subst h
      by_cases h2 : a = k' <;> simp [GoMap.set, GoMap.get?, h2]
    · by_cases h2 : a = k'
      · subst h2
        simp [GoMap.set, GoMap.get?, h, Ne.symm h]
      · simp [GoMap.set, GoMap.get?, h, h2, ih]

theorem GoMap.mem_keys_set (m : GoMap) (k v k' : Str) :
    k' ∈ (m.set k v).keys ↔ k' = k ∨ k' ∈ m.keys := by
  induction m with
  | nil => simp [GoMap.set, GoMap.keys]
  | cons p rest ih =>
    obtain ⟨a, b⟩ := p
    by_cases h : a = k
    · subst h
      simp [GoMap.set, GoMap.keys]
    · simp only [GoMap.keys] at ih
      simp only [GoMap.set, h, if_false, GoMap.keys, List.map_cons, List.mem_cons, ih]
      tauto

theorem GoMap.nodup_keys_set (m : GoMap) (k v : Str) (h : m.keys.Nodup) :
    (m.set k v).keys.Nodup := by
  induction m with
  | nil => simp [GoMap.set, GoMap.keys]
  | cons p rest ih =>
    obtain ⟨a, b⟩ := p
    have hn : a ∉ GoMap.keys rest ∧ (GoMap.keys rest).Nodup := by
      simpa [GoMap.keys] using h
    by_cases hk : a = k
    · subst hk
      simpa [GoMap.set, GoMap.keys] using h
    · have h1 : a ∉ (GoMap.set rest k v).keys := by
        rw [GoMap.mem_keys_set]
        exact fun hh => hh.elim hk hn.1
      have h2 := ih hn.2
      simp only [GoMap.set, hk, if_false]
      exact List.nodup_cons.2 ⟨h1, h2⟩

theorem GoMap.get?_eq_none (m : GoMap) (k : Str) : m.get? k = none ↔ k ∉ m.keys := by
  induction m with
  | nil => simp [GoMap.get?, GoMap.keys]
  | cons p rest ih =>
    obtain ⟨a, b⟩ := p
    simp only [GoMap.keys] at ih
    by_cases h : a = k
    · subst h
      simp [GoMap.get?, GoMap.keys]
    · simp [GoMap.get?, GoMap.keys, h, ih, Ne.symm h]

theorem GoMap.mem_of_get? (m : GoMap) (k v : Str) (h : m.get? k = some v) : (k, v) ∈ m := by
  induction m with
  | nil => simp [GoMap.get?] at h
  | cons p rest ih =>
    obtain ⟨a, b⟩ := p
    by_cases hk : a = k
    · subst hk
      simp only [GoMap.get?, if_true, Option.some.injEq] at h
      simp [h]
    · simp only [GoMap.get?, hk, if_false] at h
      exact List.mem_cons_of_mem _ (ih h)

theorem GoMap.get?_of_mem (m : GoMap) (k v : Str) (hn : m.keys.Nodup) (h : (k, v) ∈ m) :
    m.get? k = some v := by
  induction m with
  | nil => simp at h
  | cons p rest ih =>
    obtain ⟨a, b⟩ := p
    have hn2 : a ∉ GoMap.keys rest ∧ (GoMap.keys rest).Nodup := by
      simpa [GoMap.keys] using hn
    rcases List.mem_cons.1 h with h1 | h1
    · cases h1
      simp [GoMap.get?]
    · have hk : a ≠ k := by
        intro e
        subst e
        exact hn2.1 (List.mem_map_of_mem Prod.fst h1)
      simp only [GoMap.get?, hk, if_false]
      exact ih hn2.2 h1

theorem GoMap.setAll_nil (m : GoMap) : m.setAll [] = m := rfl

theorem GoMap.setAll_cons (m : GoMap) (p : Str × Str) (kvs : List (Str × Str)) :
    m.setAll (p :: kvs) = (m.set p.1 p.2).setAll kvs := rfl

theorem GoMap.setAll_append (m : GoMap) (xs ys : List (Str × Str)) :
    m.setAll (xs ++ ys) = (m.setAll xs).setAll ys := by
  simp [GoMap.setAll, List.foldl_append]

theorem GoMap.nodup_keys_setAll (m : GoMap) (kvs : List (Str × Str)) (h : m.keys.Nodup) :
    (m.setAll kvs).keys.Nodup := by
  induction kvs generalizing m with
  | nil => exact h
  | cons p kvs ih => exact ih _ (GoMap.nodup_keys_set m p.1 p.2 h)

theorem GoMap.mem_keys_setAll (m : GoMap) (kvs : List (Str × Str)) (k : Str) :
    k ∈ (m.setAll kvs).keys ↔ k ∈ m.keys ∨ k ∈ kvs.map Prod.fst := by
  induction kvs generalizing m with
  | nil => simp [GoMap.setAll]
  | cons p kvs ih =>
    rw [GoMap.setAll_cons, ih, GoMap.mem_keys_set]
    simp only [List.map_cons, List.mem_cons]
    tauto

theorem GoMap.get?_setAll_of_not_mem (m : GoMap) (kvs : List (Str × Str)) (k : Str)
    (h : k ∉ kvs.map Prod.fst) : (m.setAll kvs).get? k = m.get? k := by
  induction kvs generalizing m with
  | nil => rfl
  | cons p kvs ih =>
    have h1 : p.1 ≠ k := fun e => h (by simp [e])
    have h2 : k ∉ kvs.map Prod.fst := fun e => h (by simp only [List.map_cons]; exact List.mem_cons_of_mem _ e)
    rw [GoMap.setAll_cons, ih _ h2, GoMap.get?_set, if_neg h1]

theorem GoMap.get?_setAll_of_last (m : GoMap) (pre post : List (Str × Str)) (k v : Str)
    (h : k ∉ post.map Prod.fst) : (m.setAll (pre ++ (k, v) :: post)).get? k = some v := by
  rw [GoMap.setAll_append, GoMap.setAll_cons, GoMap.get?_setAll_of_not_mem _ _ _ h,
    GoMap.get?_set, if_pos rfl]

theorem GoMap.get?_setAll_some (m : GoMap) (kvs : List (Str × Str)) (k v : Str)
    (h : (m.setAll kvs).get? k = some v) : m.get? k = some v ∨ (k, v) ∈ kvs := by
  induction kvs generalizing m with
  | nil => exact Or.inl h
  | cons p kvs ih =>
    rw [GoMap.setAll_cons] at h
    rcases ih _ h with h1 | h1
    · rw [GoMap.get?_set] at h1
      by_cases hk : p.1 = k
      · rw [if_pos hk] at h1
        right
        have : p = (k, v) := by
          cases p
          simp only [Option.some.injEq] at h1
          simp_all
        rw [this]
        exact List.mem_cons_self _ _
      · rw [if_neg hk] at h1
        exact Or.inl h1
    · exact Or.inr (List.mem_cons_of_mem _ h1)

/-- Merging a map with pairwise different keys into another one: the merged-in
value wins, the other keys keep their value. -/
theorem GoMap.get?_setAll_map (m kvs : GoMap) (k : Str) (hn : kvs.keys.Nodup) :
    (m.setAll kvs).get? k = (kvs.get? k).orElse (fun _ => m.get? k) := by
  cases hg : kvs.get? k with
  | none =>
    have hk : k ∉ kvs.map Prod.fst := (GoMap.get?_eq_none kvs k).1 hg
    simp [GoMap.get?_setAll_of_not_mem _ _ _ hk]
  | some v =>
    obtain ⟨pre, post, e⟩ := List.append_of_mem (GoMap.mem_of_get? _ _ _ hg)
    have hk : k ∉ post.map Prod.fst := by
      intro hmem
      rw [e] at hn
      simp only [GoMap.keys, List.map_append, List.map_cons] at hn
      have := (List.nodup_cons.1 (List.nodup_append.1 hn).2.1).1
      exact this hmem
    rw [e, GoMap.get?_setAll_of_last _ _ _ _ _ hk]
    rfl

/-! ## Lemmas on `loadEnvVariables` -/

theorem loadEnvVariables.line_eq (m : GoMap) (l : Str) :
    loadEnvVariables.line m l =
      match loadEnvVariables.entry l with
      | some kv => m.set kv.1 kv.2
      | none => m := by
  unfold loadEnvVariables.line loadEnvVariables.entry
  split <;> simp

theorem loadEnvVariables.foldl_line (m : GoMap) (ls : List Str) :
    ls.foldl loadEnvVariables.line m = m.setAll (ls.filterMap loadEnvVariables.entry) := by
  induction ls generalizing m with
  | nil => rfl
  | cons l ls ih =>
    rw [List.foldl_cons, ih, loadEnvVariables.line_eq]
    cases h : loadEnvVariables.entry l with
    | none => simp [List.filterMap_cons, h]
    | some kv => simp [List.filterMap_cons, h, GoMap.setAll_cons]

theorem loadEnvVariables.entry_eq_some_iff (l k v : Str) :
    loadEnvVariables.entry l = some (k, v) ↔ TrimSpace l = k ++ '=' :: v ∧ '=' ∉ k := by
  constructor
  · intro h
    unfold loadEnvVariables.entry at h
    split at h
    · rename_i key value heq
      simp only [Option.some.injEq, Prod.mk.injEq] at h
      obtain ⟨rfl, rfl⟩ := h
      exact SplitN_two_eq_pair _ _ _ _ heq
    · simp at h
  · rintro ⟨h1, h2⟩
    unfold loadEnvVariables.entry
    rw [h1, SplitN_two_append _ _ _ h2]

theorem TrimSpace_subset (l : Str) (x : Char) (h : x ∈ TrimSpace l) : x ∈ l := by
  unfold TrimSpace at h
  exact (List.dropWhile_sublist isSpace).subset ((List.rdropWhile_prefix isSpace _).subset h)

theorem loadEnvVariables.entry_eq_none (l : Str) (h : '=' ∉ l) :
    loadEnvVariables.entry l = none := by
  have h1 : '=' ∉ TrimSpace l := fun e => h (TrimSpace_subset l _ e)
  unfold loadEnvVariables.entry
  rw [SplitN_two_of_not_mem _ _ h1]

theorem loadEnvVariables.entry_cons_space (x : Char) (l : Str) (hx : isSpace x = true) :
    loadEnvVariables.entry (x :: l) = loadEnvVariables.entry l := by
  unfold loadEnvVariables.entry
  rw [TrimSpace_cons_space x l hx]

theorem loadEnvVariables.entry_snoc_space (x : Char) (l : Str) (hx : isSpace x = true) :
    loadEnvVariables.entry (l ++ [x]) = loadEnvVariables.entry l := by
  unfold loadEnvVariables.entry
  rw [TrimSpace_snoc_space x l hx]

theorem loadEnvVariables.entry_nil : loadEnvVariables.entry [] = none := rfl

theorem loadEnvVariables.filterMap_consHead (x : Char) (L : List Str) (hx : isSpace x = true)
    (hL : L ≠ []) :
    (consHead x L).filterMap loadEnvVariables.entry = L.filterMap loadEnvVariables.entry := by
  cases L with
  | nil => exact absurd rfl hL
  | cons h t =>
    simp [consHead, List.filterMap_cons, loadEnvVariables.entry_cons_space x h hx]

theorem loadEnvVariables.filterMap_snocLast (x : Char) (L : List Str) (hx : isSpace x = true)
    (hL : L ≠ []) :
    (snocLast L x).filterMap loadEnvVariables.entry = L.filterMap loadEnvVariables.entry := by
  induction L with
  | nil => exact absurd rfl hL
  | cons h t ih =>
    cases t with
    | nil => simp [snocLast, List.filterMap_cons, loadEnvVariables.entry_snoc_space x h hx]
    | cons b t =>
      have := ih (by simp)
      simp only [snocLast, List.filterMap_cons, this]

theorem isSpace_newline : isSpace '\n' = true := by decide

theorem loadEnvVariables.filterMap_dropWhile (s : Str) :
    (Split (s.dropWhile isSpace) '\n').filterMap loadEnvVariables.entry =
      (Split s '\n').filterMap loadEnvVariables.entry := by
  induction s with
  | nil => rfl
  | cons x s ih =>
    by_cases hx : isSpace x = true
    · have e : (x :: s).dropWhile isSpace = s.dropWhile isSpace := by
        simp [List.dropWhile, hx]
      rw [e, ih]
      by_cases hn : x = '\n'
      · simp [Split, hn, List.filterMap_cons, loadEnvVariables.entry_nil]
      · simp only [Split, hn, if_false]
        exact (loadEnvVariables.filterMap_consHead x _ hx (Split_ne_nil s _)).symm
    · have e : (x :: s).dropWhile isSpace = x :: s := by
        simp [List.dropWhile, hx]
      rw [e]

theorem loadEnvVariables.filterMap_rdropWhile (s : Str) :
    (Split (s.rdropWhile isSpace) '\n').filterMap loadEnvVariables.entry =
      (Split s '\n').filterMap loadEnvVariables.entry := by
  induction s using List.reverseRecOn with
  | nil => rfl
  | append_singleton s x ih =>
    rw [List.rdropWhile_concat]
    by_cases hx : isSpace x = true
    · rw [if_pos hx, ih, Split_snoc]
      by_cases hn : x = '\n'
      · simp [hn, List.filterMap_append, loadEnvVariables.entry_nil]
      · rw [if_neg hn]
        exact (loadEnvVariables.filterMap_snocLast x _ hx (Split_ne_nil s _)).symm
    · rw [if_neg hx]

theorem loadEnvVariables.filterMap_TrimSpace (s : Str) :
    (Split (TrimSpace s) '\n').filterMap loadEnvVariables.entry =
      (Split s '\n').filterMap loadEnvVariables.entry := by
  unfold TrimSpace
  rw [loadEnvVariables.filterMap_rdropWhile, loadEnvVariables.filterMap_dropWhile]

/-- The map of a readable file: the entries of its lines, assigned from the first
line to the last. -/
theorem loadEnvVariables_of_read {σ : Type} (c : Client σ) (file : Str)
    (h : c.fs.ReadFile c.cfg.AgentConfigFile = .ok file) :
    loadEnvVariables c = GoMap.setAll [] ((Split file '\n').filterMap loadEnvVariables.entry) := by
  unfold loadEnvVariables
  rw [h]
  simp only
  rw [loadEnvVariables.foldl_line, loadEnvVariables.filterMap_TrimSpace]

theorem loadEnvVariables_of_error {σ : Type} (c : Client σ) (e : error)
    (h : c.fs.ReadFile c.cfg.AgentConfigFile = .error e) : loadEnvVariables c = [] := by
  unfold loadEnvVariables
  rw [h]

theorem loadEnvVariables_eq_setAll {σ : Type} (c : Client σ) :
    ∃ kvs : List (Str × Str), loadEnvVariables c = GoMap.setAll [] kvs ∧
      ∀ kv ∈ kvs, '=' ∉ kv.1 := by
  cases h : c.fs.ReadFile c.cfg.AgentConfigFile with
  | error e => exact ⟨[], by rw [loadEnvVariables_of_error c e h]; rfl, by simp⟩
  | ok file =>
    refine ⟨_, loadEnvVariables_of_read c file h, ?_⟩
    intro kv hkv
    obtain ⟨l, _, hl⟩ := List.mem_filterMap.1 hkv
    exact ((loadEnvVariables.entry_eq_some_iff l kv.1 kv.2).1 hl).2

theorem loadEnvVariables_nodup_keys {σ : Type} (c : Client σ) :
    (loadEnvVariables c).keys.Nodup := by
  obtain ⟨kvs, h, _⟩ := loadEnvVariables_eq_setAll c
  rw [h]
  exact GoMap.nodup_keys_setAll [] kvs (by simp [GoMap.keys])

theorem loadEnvVariables_keys_no_eq {σ : Type} (c : Client σ) :
    ∀ k ∈ (loadEnvVariables c).keys, '=' ∉ k := by
  obtain ⟨kvs, h, hk⟩ := loadEnvVariables_eq_setAll c
  intro k hmem
  rw [h, GoMap.mem_keys_setAll] at hmem
  rcases hmem with hmem | hmem
  · simp [GoMap.keys] at hmem
  · obtain ⟨kv, hkv, rfl⟩ := List.mem_map.1 hmem
    exact hk kv hkv

/-! ## Lemmas on `getContainerConfig` -/

theorem count_eq_one_of_nodup_of_mem {α : Type} [BEq α] [LawfulBEq α] {a : α} {l : List α}
    (d : l.Nodup) (h : a ∈ l) : l.count a = 1 := by
  induction l with
  | nil => simp at h
  | cons x t ih =>
    obtain ⟨hx, ht⟩ := List.nodup_cons.1 d
    rw [List.count_cons]
    by_cases e : a = x
    · subst e
      simp [List.count_eq_zero_of_not_mem hx]
    · have hne : (x == a) = false := by
        simpa using Ne.symm e
      rcases List.mem_cons.1 h with h1 | h1
      · exact absurd h1 e
      · simp [ih ht h1, hne]

theorem envEntry_eq (k v : Str) : envEntry k v = k ++ '=' :: v := by
  simp [envEntry, eqSign_toList]

theorem envEntry_inj (k v k' v' : Str) (hk : '=' ∉ k) (hk' : '=' ∉ k')
    (h : envEntry k v = envEntry k' v') : k = k' ∧ v = v' := by
  rw [envEntry_eq, envEntry_eq] at h
  induction k generalizing k' with
  | nil =>
    cases k' with
    | nil => simpa using h
    | cons a t =>
      simp only [List.nil_append, List.cons_append, List.cons.injEq] at h
      exact absurd (h.1 ▸ List.mem_cons_self _ _) hk'
  | cons b s ih =>
    cases k' with
    | nil =>
      simp only [List.nil_append, List.cons_append, List.cons.injEq] at h
      exact absurd (h.1 ▸ List.mem_cons_self _ _) hk
    | cons a t =>
      simp only [List.cons_append, List.cons.injEq] at h
      have h1 := ih t (fun e => hk (List.mem_cons_of_mem _ e))
        (fun e => hk' (List.mem_cons_of_mem _ e)) h.2
      exact ⟨by rw [h.1, h1.1], h1.2⟩

theorem getContainerConfig.defaults_keys (cfg : config) :
    (getContainerConfig.defaults cfg).keys =
      ["ECS_LOGFILE".toList, "ECS_DATADIR".toList, "ECS_AGENT_CONFIG_FILE_PATH".toList,
        "ECS_UPDATE_DOWNLOAD_DIR".toList, "ECS_UPDATES_ENABLED".toList,
        "ECS_AVAILABLE_LOGGING_DRIVERS".toList] := rfl

theorem getContainerConfig.defaults_keys_nodup (cfg : config) :
    (getContainerConfig.defaults cfg).keys.Nodup := by
  rw [getContainerConfig.defaults_keys]
  decide

theorem getContainerConfig.defaults_keys_no_eq (cfg : config) :
    ∀ k ∈ (getContainerConfig.defaults cfg).keys, '=' ∉ k := by
  rw [getContainerConfig.defaults_keys]
  decide

theorem getContainerConfig.envVariables_eq {σ : Type} (c : Client σ) :
    getContainerConfig.envVariables c =
      (getContainerConfig.defaults c.cfg).setAll (loadEnvVariables c) := rfl

theorem getContainerConfig.envVariables_nodup {σ : Type} (c : Client σ) :
    (getContainerConfig.envVariables c).keys.Nodup :=
  GoMap.nodup_keys_setAll _ _ (getContainerConfig.defaults_keys_nodup c.cfg)

theorem getContainerConfig.mem_envVariables_keys {σ : Type} (c : Client σ) (k : Str) :
    k ∈ (getContainerConfig.envVariables c).keys ↔
      k ∈ (getContainerConfig.defaults c.cfg).keys ∨ k ∈ (loadEnvVariables c).keys := by
  rw [getContainerConfig.envVariables_eq, GoMap.mem_keys_setAll]
  rfl

theorem getContainerConfig.envVariables_keys_no_eq {σ : Type} (c : Client σ) :
    ∀ k ∈ (getContainerConfig.envVariables c).keys, '=' ∉ k := by
  intro k hk
  rcases (getContainerConfig.mem_envVariables_keys c k).1 hk with h | h
  · exact getContainerConfig.defaults_keys_no_eq c.cfg k h
  · exact loadEnvVariables_keys_no_eq c k h

theorem getContainerConfig.get?_envVariables {σ : Type} (c : Client σ) (k : Str) :
    (getContainerConfig.envVariables c).get? k =
      ((loadEnvVariables c).get? k).orElse
        (fun _ => (getContainerConfig.defaults c.cfg).get? k) := by
  rw [getContainerConfig.envVariables_eq]
  exact GoMap.get?_setAll_map _ _ k (loadEnvVariables_nodup_keys c)

theorem getContainerConfig.Env_eq {σ : Type} (c : Client σ) :
    (getContainerConfig c).Env =
      (getContainerConfig.envVariables c).map (fun kv => envEntry kv.1 kv.2) := rfl

theorem getContainerConfig.mem_Env {σ : Type} (c : Client σ) (e : Str) :
    e ∈ (getContainerConfig c).Env ↔
      ∃ k v, (getContainerConfig.envVariables c).get? k = some v ∧ e = envEntry k v := by
  rw [getContainerConfig.Env_eq, List.mem_map]
  constructor
  · rintro ⟨⟨k, v⟩, hmem, rfl⟩
    exact ⟨k, v, GoMap.get?_of_mem _ _ _ (getContainerConfig.envVariables_nodup c) hmem, rfl⟩
  · rintro ⟨k, v, hget, rfl⟩
    exact ⟨(k, v), GoMap.mem_of_get? _ _ _ hget, rfl⟩

theorem GoMap.mem_keys_of_get? (m : GoMap) (k v : Str) (h : m.get? k = some v) :
    k ∈ m.keys :=
  List.mem_map_of_mem Prod.fst (GoMap.mem_of_get? m k v h)

theorem getContainerConfig.Env_nodup {σ : Type} (c : Client σ) :
    (getContainerConfig c).Env.Nodup := by
  rw [getContainerConfig.Env_eq]
  refine List.Nodup.map_on ?_ ?_
  · rintro ⟨k1, v1⟩ h1 ⟨k2, v2⟩ h2 heq
    have n1 := getContainerConfig.envVariables_keys_no_eq c k1 (List.mem_map_of_mem Prod.fst h1)
    have n2 := getContainerConfig.envVariables_keys_no_eq c k2 (List.mem_map_of_mem Prod.fst h2)
    obtain ⟨e1, e2⟩ := envEntry_inj _ _ _ _ n1 n2 heq
    exact Prod.ext e1 e2
  · exact (List.Nodup.of_map _ (getContainerConfig.envVariables_nodup c))

/-- The environment holds the entry of a key exactly once, and no other entry
that starts with the key and `=`. -/
theorem getContainerConfig.Env_of_get? {σ : Type} (c : Client σ) (k v : Str)
    (h : (getContainerConfig.envVariables c).get? k = some v) :
    (getContainerConfig c).Env.count (envEntry k v) = 1 ∧
      ∀ e ∈ (getContainerConfig c).Env, (k ++ "=".toList) <+: e → e = envEntry k v := by
  have hk : '=' ∉ k :=
    getContainerConfig.envVariables_keys_no_eq c k (GoMap.mem_keys_of_get? _ _ _ h)
  have hother : ∀ e ∈ (getContainerConfig c).Env, (k ++ "=".toList) <+: e →
      e = envEntry k v := by
    intro e he hr
    obtain ⟨rest, hrest⟩ := hr
    have hrest2 : e = envEntry k rest := hrest.symm
    subst hrest2
    obtain ⟨k', v', hget, heq⟩ := (getContainerConfig.mem_Env c _).1 he
    have hk' : '=' ∉ k' :=
      getContainerConfig.envVariables_keys_no_eq c k' (GoMap.mem_keys_of_get? _ _ _ hget)
    obtain ⟨e1, e2⟩ := envEntry_inj _ _ _ _ hk hk' heq
    subst e1
    rw [h] at hget
    rw [e2, Option.some.inj hget]
  refine ⟨?_, hother⟩
  exact count_eq_one_of_nodup_of_mem (getContainerConfig.Env_nodup c)
    ((getContainerConfig.mem_Env c _).2 ⟨k, v, h, rfl⟩)

/-- The value that a readable override file sets is the value of the map. -/
theorem loadEnvVariables_get?_of_sets {σ : Type} (c : Client σ) (file k v : Str)
    (hread : c.fs.ReadFile c.cfg.AgentConfigFile = .ok file)
    (hsets : OverrideFile.sets file k v) : (loadEnvVariables c).get? k = some v := by
  obtain ⟨before, line, after, hsplit, hline, hk, hlater⟩ := hsets
  rw [envEntry_eq] at hline
  rw [loadEnvVariables_of_read c file hread, hsplit, List.filterMap_append, List.filterMap_cons,
    (loadEnvVariables.entry_eq_some_iff line k v).2 ⟨hline, hk⟩]
  apply GoMap.get?_setAll_of_last
  intro hmem
  obtain ⟨⟨k', v'⟩, hkv, hfst⟩ := List.mem_map.1 hmem
  simp only at hfst
  subst hfst
  obtain ⟨l, hl, hentry⟩ := List.mem_filterMap.1 hkv
  have := ((loadEnvVariables.entry_eq_some_iff l k' v').1 hentry).1
  exact hlater l hl ⟨v', by rw [this]; simp [eqSign_toList]⟩

theorem loadEnvVariables.filterMap_filter (L : List Str) :
    (L.filter (fun l => decide ('=' ∈ l))).filterMap loadEnvVariables.entry =
      L.filterMap loadEnvVariables.entry := by
  induction L with
  | nil => rfl
  | cons l L ih =>
    by_cases h : '=' ∈ l
    · simp only [List.filter_cons, h, decide_True, if_true, List.filterMap_cons, ih]
    · simp [List.filter_cons, h, List.filterMap_cons, ih, loadEnvVariables.entry_eq_none l h]

/-- Deleting the lines without `=` from a file does not change the entries of its
lines. -/
theorem loadEnvVariables.filterMap_Split_Join_filter (file : Str) :
    (Split (Join ((Split file '\n').filter (fun l => decide ('=' ∈ l))) '\n') '\n').filterMap
        loadEnvVariables.entry =
      (Split file '\n').filterMap loadEnvVariables.entry := by
  rw [← loadEnvVariables.filterMap_filter (Split file '\n')]
  cases hls : (Split file '\n').filter (fun l => decide ('=' ∈ l)) with
  | nil => rfl
  | cons a t =>
    rw [Split_Join _ _ (by simp)]
    intro l hl
    rw [← hls] at hl
    exact Split_not_mem file '\n' l (List.mem_filter.1 hl).1

theorem StartAgent_calls_head {σ : Type} (c : Client σ) (s : σ) :
    (StartAgent c s).calls.head? = some (Call.CreateContainer (StartAgent.opts c)) := by
  unfold StartAgent
  split
  · rfl
  · split
    · rfl
    · rfl

theorem getContainerConfig.Env_of_error {σ : Type} (c : Client σ) (e : error)
    (h : c.fs.ReadFile c.cfg.AgentConfigFile = .error e) :
    (getContainerConfig c).Env =
      (getContainerConfig.defaults c.cfg).map (fun kv => envEntry kv.1 kv.2) := by
  rw [getContainerConfig.Env_eq, getContainerConfig.envVariables_eq,
    loadEnvVariables_of_error c e h]
  rfl

/-! ## The statements of the specification -/

/-- C1: when `CreateContainer` fails with the error `e`, `StartAgent` returns `(0, e)`
and issues neither `StartContainer` nor `WaitContainer`; when `CreateContainer`
succeeds and `StartContainer` fails with `e`, `StartAgent` returns `(0, e)` and does
not issue `WaitContainer`. -/
theorem StartAgent_create_or_start_failure {σ : Type} (c : Client σ) (s : σ) :
    (∀ (e : error) (s1 : σ),
        c.docker.CreateContainer (StartAgent.opts c) s = (.error e, s1) →
        (StartAgent c s).exitCode = 0 ∧ (StartAgent c s).err = some e ∧
        (∀ id hostConfig, Call.StartContainer id hostConfig ∉ (StartAgent c s).calls) ∧
        (∀ id, Call.WaitContainer id ∉ (StartAgent c s).calls)) ∧
    (∀ (container : godocker.Container) (s1 : σ) (e : error) (s2 : σ),
        c.docker.CreateContainer (StartAgent.opts c) s = (.ok container, s1) →
        c.docker.StartContainer container.ID none s1 = (some e, s2) →
        (StartAgent c s).exitCode = 0 ∧ (StartAgent c s).err = some e ∧
        (∀ id, Call.WaitContainer id ∉ (StartAgent c s).calls)) := by
  constructor
  · intro e s1 h
    unfold StartAgent
    rw [h]
    simp
  · intro container s1 e s2 h1 h2
    unfold StartAgent
    rw [h1]
    simp only
    rw [h2]
    simp

theorem StartAgent_create_or_start_failure_witness :
    ((StartAgent (exampleClient [] (.error ⟨"create error"⟩) none (0, none)) ()).exitCode = 0 ∧
      (StartAgent (exampleClient [] (.error ⟨"create error"⟩) none (0, none)) ()).err =
        some ⟨"create error"⟩ ∧
      (∀ id hostConfig, Call.StartContainer id hostConfig ∉
        (StartAgent (exampleClient [] (.error ⟨"create error"⟩) none (0, none)) ()).calls) ∧
      (∀ id, Call.WaitContainer id ∉
        (StartAgent (exampleClient [] (.error ⟨"create error"⟩) none (0, none)) ()).calls)) ∧
    ((StartAgent (exampleClient [] (.ok ⟨"container id".toList⟩) (some ⟨"start error"⟩)
        (0, none)) ()).exitCode = 0 ∧
      (StartAgent (exampleClient [] (.ok ⟨"container id".toList⟩) (some ⟨"start error"⟩)
        (0, none)) ()).err = some ⟨"start error"⟩ ∧
      (∀ id, Call.WaitContainer id ∉
        (StartAgent (exampleClient [] (.ok ⟨"container id".toList⟩) (some ⟨"start error"⟩)
          (0, none)) ()).calls)) :=
  ⟨(StartAgent_create_or_start_failure
      (exampleClient [] (.error ⟨"create error"⟩) none (0, none)) ()).1 ⟨"create error"⟩ () rfl,
    (StartAgent_create_or_start_failure
      (exampleClient [] (.ok ⟨"container id".toList⟩) (some ⟨"start error"⟩) (0, none)) ()).2
      ⟨"container id".toList⟩ () ⟨"start error"⟩ () rfl rfl⟩

/-- C2: when `CreateContainer` and `StartContainer` both succeed, `StartAgent` has
issued, in this order, `CreateContainer` under the name `ecs-agent`, `StartContainer`
and `WaitContainer` for the identifier that `CreateContainer` returned, and it
returns the exit code and the error that `WaitContainer` reports. -/
theorem StartAgent_success {σ : Type} (c : Client σ) (s s1 s2 : σ)
    (container : godocker.Container)
    (hcreate : c.docker.CreateContainer (StartAgent.opts c) s = (.ok container, s1))
    (hstart : c.docker.StartContainer container.ID none s1 = (none, s2)) :
    (StartAgent c s).calls =
        [Call.CreateContainer (StartAgent.opts c), Call.StartContainer container.ID none,
          Call.WaitContainer container.ID] ∧
      (StartAgent.opts c).Name = "ecs-agent".toList ∧
      (StartAgent c s).exitCode = (c.docker.WaitContainer container.ID s2).1.1 ∧
      (StartAgent c s).err = (c.docker.WaitContainer container.ID s2).1.2 ∧
      (StartAgent c s).state = (c.docker.WaitContainer container.ID s2).2 := by
  unfold StartAgent
  rw [hcreate]
  simp only
  rw [hstart]
  exact ⟨rfl, rfl, rfl, rfl, rfl⟩

theorem StartAgent_success_witness :
    (StartAgent (exampleClient [] (.ok ⟨"container id".toList⟩) none
        (137, some ⟨"wait error"⟩)) ()).calls =
        [Call.CreateContainer (StartAgent.opts (exampleClient [] (.ok ⟨"container id".toList⟩)
            none (137, some ⟨"wait error"⟩))),
          Call.StartContainer "container id".toList none,
          Call.WaitContainer "container id".toList] ∧
      (StartAgent.opts (exampleClient [] (.ok ⟨"container id".toList⟩) none
        (137, some ⟨"wait error"⟩))).Name = "ecs-agent".toList ∧
      (StartAgent (exampleClient [] (.ok ⟨"container id".toList⟩) none
        (137, some ⟨"wait error"⟩)) ()).exitCode = 137 ∧
      (StartAgent (exampleClient [] (.ok ⟨"container id".toList⟩) none
        (137, some ⟨"wait error"⟩)) ()).err = some ⟨"wait error"⟩ ∧
      (StartAgent (exampleClient [] (.ok ⟨"container id".toList⟩) none
        (137, some ⟨"wait error"⟩)) ()).state = () :=
  StartAgent_success (exampleClient [] (.ok ⟨"container id".toList⟩) none
    (137, some ⟨"wait error"⟩)) () () () ⟨"container id".toList⟩ rfl rfl

/-- C3: when the instance-level override file sets a flag to `true` and the user-level
override file sets the same flag to `false`, the environment that `getContainerConfig`
assembles holds the entry `FLAG=false` exactly once and no entry `FLAG=true`. -/
theorem getContainerConfig_user_over_instance {σ : Type} (c : Client σ)
    (instanceConfigFile instanceFile userFile flag : Str)
    (_hinstance : c.fs.ReadFile instanceConfigFile = .ok instanceFile)
    (_htrue : OverrideFile.sets instanceFile flag "true".toList)
    (huser : c.fs.ReadFile c.cfg.AgentConfigFile = .ok userFile)
    (hfalse : OverrideFile.sets userFile flag "false".toList) :
    (getContainerConfig c).Env.count (envEntry flag "false".toList) = 1 ∧
      envEntry flag "true".toList ∉ (getContainerConfig c).Env := by
  have hload := loadEnvVariables_get?_of_sets c userFile flag _ huser hfalse
  have hget : (getContainerConfig.envVariables c).get? flag = some "false".toList := by
    rw [getContainerConfig.get?_envVariables, hload]
    rfl
  obtain ⟨h1, h2⟩ := getContainerConfig.Env_of_get? c flag _ hget
  refine ⟨h1, ?_⟩
  intro hmem
  have := h2 _ hmem ⟨"true".toList, rfl⟩
  obtain ⟨_, _, _, _, _, hflag, _⟩ := hfalse
  have := (envEntry_inj _ _ _ _ hflag hflag this).2
  exact absurd this (by decide)

theorem getContainerConfig_user_over_instance_witness :
    (getContainerConfig (exampleClientOf
        [(exampleInstanceConfigFile, "\nECS_ENABLE_GPU_SUPPORT=true\n".toList),
          (exampleConfig.AgentConfigFile, "\nECS_ENABLE_GPU_SUPPORT=false\n".toList)])).Env.count
        "ECS_ENABLE_GPU_SUPPORT=false".toList = 1 ∧
      "ECS_ENABLE_GPU_SUPPORT=true".toList ∉
        (getContainerConfig (exampleClientOf
          [(exampleInstanceConfigFile, "\nECS_ENABLE_GPU_SUPPORT=true\n".toList),
            (exampleConfig.AgentConfigFile,
              "\nECS_ENABLE_GPU_SUPPORT=false\n".toList)])).Env :=
  getContainerConfig_user_over_instance
    (exampleClientOf
      [(exampleInstanceConfigFile, "\nECS_ENABLE_GPU_SUPPORT=true\n".toList),
        (exampleConfig.AgentConfigFile, "\nECS_ENABLE_GPU_SUPPORT=false\n".toList)])
    exampleInstanceConfigFile "\nECS_ENABLE_GPU_SUPPORT=true\n".toList
    "\nECS_ENABLE_GPU_SUPPORT=false\n".toList "ECS_ENABLE_GPU_SUPPORT".toList
    rfl
    ⟨["".toList], "ECS_ENABLE_GPU_SUPPORT=true".toList, ["".toList],
      by decide, by decide, by decide, by decide⟩
    rfl
    ⟨["".toList], "ECS_ENABLE_GPU_SUPPORT=false".toList, ["".toList],
      by decide, by decide, by decide, by decide⟩

/-- C4: for a key that the user-level override file sets, the assembled environment
holds the entry of the key with the value of the last line that sets it, and no other
entry that starts with the key and `=`; a default of the key with another value is
not kept. -/
theorem getContainerConfig_user_file_value {σ : Type} (c : Client σ) (userFile k v : Str)
    (hread : c.fs.ReadFile c.cfg.AgentConfigFile = .ok userFile)
    (hsets : OverrideFile.sets userFile k v) :
    envEntry k v ∈ (getContainerConfig c).Env ∧
      (∀ e ∈ (getContainerConfig c).Env, (k ++ "=".toList) <+: e → e = envEntry k v) ∧
      (∀ d, (getContainerConfig.defaults c.cfg).get? k = some d → d ≠ v →
        envEntry k d ∉ (getContainerConfig c).Env) := by
  have hload := loadEnvVariables_get?_of_sets c userFile k v hread hsets
  have hget : (getContainerConfig.envVariables c).get? k = some v := by
    rw [getContainerConfig.get?_envVariables, hload]
    rfl
  obtain ⟨h1, h2⟩ := getContainerConfig.Env_of_get? c k v hget
  refine ⟨(getContainerConfig.mem_Env c _).2 ⟨k, v, hget, rfl⟩, h2, ?_⟩
  intro d _ hne hmem
  have h3 := h2 _ hmem ⟨d, rfl⟩
  obtain ⟨_, _, _, _, _, hk, _⟩ := hsets
  exact hne (envEntry_inj _ _ _ _ hk hk h3).2

theorem getContainerConfig_user_file_value_witness :
    "ECS_UPDATES_ENABLED=false".toList ∈
        (getContainerConfig (exampleClientOf [(exampleConfig.AgentConfigFile,
          "\nECS_UPDATES_ENABLED=false\nAGENT_TEST_VAR2=\"val2\"=val2\n".toList)])).Env ∧
      "ECS_UPDATES_ENABLED=true".toList ∉
        (getContainerConfig (exampleClientOf [(exampleConfig.AgentConfigFile,
          "\nECS_UPDATES_ENABLED=false\nAGENT_TEST_VAR2=\"val2\"=val2\n".toList)])).Env :=
  have h := getContainerConfig_user_file_value
    (exampleClientOf [(exampleConfig.AgentConfigFile,
      "\nECS_UPDATES_ENABLED=false\nAGENT_TEST_VAR2=\"val2\"=val2\n".toList)])
    "\nECS_UPDATES_ENABLED=false\nAGENT_TEST_VAR2=\"val2\"=val2\n".toList
    "ECS_UPDATES_ENABLED".toList "false".toList rfl
    ⟨["".toList], "ECS_UPDATES_ENABLED=false".toList,
      ["AGENT_TEST_VAR2=\"val2\"=val2".toList, "".toList],
      by decide, by decide, by decide, by decide⟩
  ⟨h.1, h.2.2 "true".toList rfl (by decide)⟩

/-- C5: only the first `=` of a line separates key from value.  For a line of the
override file whose trimmed form is `K=V`, where `=` does not occur in `K` and `V` is
arbitrary, the loop of `loadEnvVariables` assigns the whole of `V` to `K`; and when no
later line starts with `K=`, the returned map gives `V` for `K`. -/
theorem loadEnvVariables_first_eq_separates {σ : Type} (c : Client σ) (file : Str)
    (before : List Str) (line : Str) (after : List Str) (K V : Str)
    (hread : c.fs.ReadFile c.cfg.AgentConfigFile = .ok file)
    (hsplit : Split file '\n' = before ++ line :: after)
    (hline : TrimSpace line = K ++ "=".toList ++ V)
    (hK : '=' ∉ K) :
    (∀ envVariables : GoMap, loadEnvVariables.line envVariables line = envVariables.set K V) ∧
      ((∀ later ∈ after, ¬ (K ++ "=".toList) <+: TrimSpace later) →
        (loadEnvVariables c).get? K = some V) := by
  constructor
  · intro m
    rw [loadEnvVariables.line_eq,
      (loadEnvVariables.entry_eq_some_iff line K V).2 ⟨by rw [hline]; simp [eqSign_toList], hK⟩]
  · intro hafter
    exact loadEnvVariables_get?_of_sets c file K V hread ⟨before, line, after, hsplit, hline, hK, hafter⟩

theorem loadEnvVariables_first_eq_separates_witness :
    (loadEnvVariables (exampleClientOf [(exampleConfig.AgentConfigFile,
        "\nECS_UPDATES_ENABLED=false\nAGENT_TEST_VAR2=\"val2\"=val2\n".toList)])).get?
      "AGENT_TEST_VAR2".toList = some "\"val2\"=val2".toList :=
  (loadEnvVariables_first_eq_separates
    (exampleClientOf [(exampleConfig.AgentConfigFile,
      "\nECS_UPDATES_ENABLED=false\nAGENT_TEST_VAR2=\"val2\"=val2\n".toList)])
    "\nECS_UPDATES_ENABLED=false\nAGENT_TEST_VAR2=\"val2\"=val2\n".toList
    ["".toList, "ECS_UPDATES_ENABLED=false".toList] "AGENT_TEST_VAR2=\"val2\"=val2".toList
    ["".toList] "AGENT_TEST_VAR2".toList "\"val2\"=val2".toList
    rfl (by decide) (by decide) (by decide)).2 (by decide)

/-- C6: blank lines and lines without `=` are ignored.  Deleting all lines without `=`
(the blank lines are among them) from an override file leaves the map of
`loadEnvVariables` unchanged, and every key of the map, with its value, is read off a
line that contains `=`. -/
theorem loadEnvVariables_ignores_lines_without_eq {σ τ : Type} (c : Client σ) (c' : Client τ)
    (file : Str)
    (hread : c.fs.ReadFile c.cfg.AgentConfigFile = .ok file)
    (hread' : c'.fs.ReadFile c'.cfg.AgentConfigFile =
      .ok (Join ((Split file '\n').filter (fun l => decide ('=' ∈ l))) '\n')) :
    loadEnvVariables c' = loadEnvVariables c ∧
      ∀ k v, (loadEnvVariables c).get? k = some v →
        ∃ l ∈ Split file '\n', '=' ∈ l ∧ TrimSpace l = envEntry k v ∧ '=' ∉ k := by
  constructor
  · rw [loadEnvVariables_of_read c file hread, loadEnvVariables_of_read c' _ hread',
      loadEnvVariables.filterMap_Split_Join_filter]
  · intro k v hget
    rw [loadEnvVariables_of_read c file hread] at hget
    rcases GoMap.get?_setAll_some _ _ _ _ hget with h | h
    · simp [GoMap.get?] at h
    · obtain ⟨l, hl, hentry⟩ := List.mem_filterMap.1 h
      obtain ⟨h1, h2⟩ := (loadEnvVariables.entry_eq_some_iff l k v).1 hentry
      refine ⟨l, hl, ?_, by rw [envEntry_eq]; exact h1, h2⟩
      exact TrimSpace_subset l _ (by rw [h1]; simp)

theorem loadEnvVariables_ignores_lines_without_eq_witness :
    loadEnvVariables (exampleClientOf [(exampleConfig.AgentConfigFile,
        "AGENT_TEST_VAR=val\nAGENT_TEST_VAR2=val2".toList)]) =
      loadEnvVariables (exampleClientOf [(exampleConfig.AgentConfigFile,
        "\nAGENT_TEST_VAR=val\nAGENT_TEST_VAR2=val2\n".toList)]) :=
  (loadEnvVariables_ignores_lines_without_eq
    (exampleClientOf [(exampleConfig.AgentConfigFile,
      "\nAGENT_TEST_VAR=val\nAGENT_TEST_VAR2=val2\n".toList)])
    (exampleClientOf [(exampleConfig.AgentConfigFile,
      "AGENT_TEST_VAR=val\nAGENT_TEST_VAR2=val2".toList)])
    "\nAGENT_TEST_VAR=val\nAGENT_TEST_VAR2=val2\n".toList rfl rfl).1

/-- C7: a missing or unreadable override file contributes nothing and is no error.
When reading the file fails, `loadEnvVariables` returns the empty map, the assembled
environment is, up to order, the six default entries, one per default key, and
`StartAgent` goes on to create the container with this environment. -/
theorem unreadable_file_contributes_nothing {σ : Type} (c : Client σ) (s : σ) (e : error)
    (hread : c.fs.ReadFile c.cfg.AgentConfigFile = .error e) :
    loadEnvVariables c = [] ∧
      (getContainerConfig c).Env.Perm
        [ envEntry "ECS_LOGFILE".toList ("/log/".toList ++ c.cfg.AgentLogFile),
          envEntry "ECS_DATADIR".toList "/data".toList,
          envEntry "ECS_AGENT_CONFIG_FILE_PATH".toList c.cfg.AgentJSONConfigFile,
          envEntry "ECS_UPDATE_DOWNLOAD_DIR".toList c.cfg.CacheDirectory,
          envEntry "ECS_UPDATES_ENABLED".toList "true".toList,
          envEntry "ECS_AVAILABLE_LOGGING_DRIVERS".toList
            "[\"json-file\",\"syslog\"]".toList ] ∧
      (StartAgent c s).calls.head? = some (Call.CreateContainer (StartAgent.opts c)) ∧
      (StartAgent.opts c).Config.Env = (getContainerConfig c).Env := by
  refine ⟨loadEnvVariables_of_error c e hread, ?_, StartAgent_calls_head c s, rfl⟩
  rw [getContainerConfig.Env_of_error c e hread]
  exact List.Perm.refl _

theorem unreadable_file_contributes_nothing_witness :
    loadEnvVariables (exampleClientOf []) = [] ∧
      (getContainerConfig (exampleClientOf [])).Env.Perm
        [ "ECS_LOGFILE=/log/ecs-agent.log".toList,
          "ECS_DATADIR=/data".toList,
          "ECS_AGENT_CONFIG_FILE_PATH=/etc/ecs/ecs.config.json".toList,
          "ECS_UPDATE_DOWNLOAD_DIR=/var/cache/ecs".toList,
          "ECS_UPDATES_ENABLED=true".toList,
          "ECS_AVAILABLE_LOGGING_DRIVERS=[\"json-file\",\"syslog\"]".toList ] ∧
      (StartAgent (exampleClientOf []) ()).calls.head? =
        some (Call.CreateContainer (StartAgent.opts (exampleClientOf []))) ∧
      (StartAgent.opts (exampleClientOf [])).Config.Env =
        (getContainerConfig (exampleClientOf [])).Env :=
  unreadable_file_contributes_nothing (exampleClientOf []) () ⟨"not found"⟩ rfl

/-- C8: the flattened environment of `getContainerConfig` has no duplicates.  Its
length is the number of distinct keys among the defaults and the keys read from the
file; for each of these keys exactly one entry starts with the key and `=`, and every
entry starts with one of these keys and `=`. -/
theorem getContainerConfig_Env_one_per_key {σ : Type} (c : Client σ) :
    (getContainerConfig c).Env.Nodup ∧
      (getContainerConfig c).Env.length =
        ((getContainerConfig.defaults c.cfg).keys ++ (loadEnvVariables c).keys).toFinset.card ∧
      (∀ k, k ∈ (getContainerConfig.defaults c.cfg).keys ∨ k ∈ (loadEnvVariables c).keys →
        ((getContainerConfig c).Env.filter
          (fun e => decide ((k ++ "=".toList) <+: e))).length = 1) ∧
      (∀ e ∈ (getContainerConfig c).Env,
        ∃ k, (k ∈ (getContainerConfig.defaults c.cfg).keys ∨ k ∈ (loadEnvVariables c).keys) ∧
          (k ++ "=".toList) <+: e) := by
  refine ⟨getContainerConfig.Env_nodup c, ?_, ?_, ?_⟩
  · have h1 : (getContainerConfig c).Env.length =
        (getContainerConfig.envVariables c).keys.length := by
      simp [getContainerConfig.Env_eq, GoMap.keys]
    have h2 : ((getContainerConfig.defaults c.cfg).keys ++ (loadEnvVariables c).keys).toFinset =
        (getContainerConfig.envVariables c).keys.toFinset := by
      ext k
      simp only [List.mem_toFinset, List.mem_append, getContainerConfig.mem_envVariables_keys]
    rw [h1, h2, List.toFinset_card_of_nodup (getContainerConfig.envVariables_nodup c)]
  · intro k hk
    have hmem := (getContainerConfig.mem_envVariables_keys c k).2 hk
    obtain ⟨v, hv⟩ : ∃ v, (getContainerConfig.envVariables c).get? k = some v := by
      cases hg : (getContainerConfig.envVariables c).get? k with
      | none => exact absurd hmem ((GoMap.get?_eq_none _ _).1 hg)
      | some v => exact ⟨v, rfl⟩
    obtain ⟨hcount, hother⟩ := getContainerConfig.Env_of_get? c k v hv
    have hfilter : (getContainerConfig c).Env.filter
        (fun e => decide ((k ++ "=".toList) <+: e)) =
        (getContainerConfig c).Env.filter (fun e => e == envEntry k v) := by
      apply List.filter_congr
      intro e he
      by_cases hp : (k ++ "=".toList) <+: e
      · rw [decide_eq_true hp, hother e he hp]
        exact (beq_self_eq_true _).symm
      · have hne : e ≠ envEntry k v := by
          intro heq
          exact hp ⟨v, by rw [heq]; simp [envEntry]⟩
        rw [decide_eq_false hp]
        exact (beq_eq_false_iff_ne.2 hne).symm
    rw [hfilter, ← List.countP_eq_length_filter]
    exact hcount
  · intro e he
    obtain ⟨k, v, hget, rfl⟩ := (getContainerConfig.mem_Env c e).1 he
    exact ⟨k, (getContainerConfig.mem_envVariables_keys c k).1 (GoMap.mem_keys_of_get? _ _ _ hget),
      ⟨v, by simp [envEntry]⟩⟩

/-- C9: the instance-level override file does not reach the environment.  With
`ECS_ENABLE_GPU_SUPPORT=true` in the instance-level file and no user-level file, the
environment that `getContainerConfig` assembles has its six default entries and no
entry `ECS_ENABLE_GPU_SUPPORT=true`. -/
theorem getContainerConfig_instance_file_not_read :
    (exampleClientOf [(exampleInstanceConfigFile,
        "\nECS_ENABLE_GPU_SUPPORT=true\n".toList)]).fs.ReadFile exampleInstanceConfigFile =
        .ok "\nECS_ENABLE_GPU_SUPPORT=true\n".toList ∧
      "ECS_ENABLE_GPU_SUPPORT=true".toList ∉
        (getContainerConfig (exampleClientOf [(exampleInstanceConfigFile,
          "\nECS_ENABLE_GPU_SUPPORT=true\n".toList)])).Env ∧
      (getContainerConfig (exampleClientOf [(exampleInstanceConfigFile,
        "\nECS_ENABLE_GPU_SUPPORT=true\n".toList)])).Env.length = 6 := by
  refine ⟨rfl, ?_, rfl⟩
  decide

/-- C10: with no readable override file the environment of `getContainerConfig` has six
entries; it holds the logging drivers `["json-file","syslog"]`, not the list with
`awslogs` and `none`, and none of the four `ECS_ENABLE_…=true` entries. -/
theorem getContainerConfig_defaults_without_files :
    (getContainerConfig (exampleClientOf [])).Env.length = 6 ∧
      "ECS_AVAILABLE_LOGGING_DRIVERS=[\"json-file\",\"syslog\"]".toList ∈
        (getContainerConfig (exampleClientOf [])).Env ∧
      "ECS_AVAILABLE_LOGGING_DRIVERS=[\"json-file\",\"syslog\",\"awslogs\",\"none\"]".toList ∉
        (getContainerConfig (exampleClientOf [])).Env ∧
      "ECS_ENABLE_TASK_IAM_ROLE=true".toList ∉ (getContainerConfig (exampleClientOf [])).Env ∧
      "ECS_ENABLE_TASK_IAM_ROLE_NETWORK_HOST=true".toList ∉
        (getContainerConfig (exampleClientOf [])).Env ∧
      "ECS_ENABLE_TASK_ENI=true".toList ∉ (getContainerConfig (exampleClientOf [])).Env ∧
      "ECS_ENABLE_AWSLOGS_EXECUTIONROLE_OVERRIDE=true".toList ∉
        (getContainerConfig (exampleClientOf [])).Env := by
  refine ⟨rfl, ?_, ?_, ?_, ?_, ?_, ?_⟩ <;> decide

/-! ## Lemmas on the listing operations -/

theorem IsAgentImageLoaded.repoTags_iff (name : Str) (tags : List Str) :
    IsAgentImageLoaded.repoTags name tags = true ↔ name ∈ tags := by
  induction tags with
  | nil => simp [IsAgentImageLoaded.repoTags]
  | cons t rest ih =>
    by_cases h : t = name
    · simp [IsAgentImageLoaded.repoTags, h]
    · simp [IsAgentImageLoaded.repoTags, h, ih, Ne.symm h]

theorem IsAgentImageLoaded.images_iff (name : Str) (images : List godocker.APIImages) :
    IsAgentImageLoaded.images name images = true ↔ ∃ image ∈ images, name ∈ image.RepoTags := by
  induction images with
  | nil => simp [IsAgentImageLoaded.images]
  | cons image rest ih =>
    by_cases h : IsAgentImageLoaded.repoTags name image.RepoTags = true
    · have hm := (IsAgentImageLoaded.repoTags_iff name image.RepoTags).1 h
      simp [IsAgentImageLoaded.images, h, hm]
    · have hm : name ∉ image.RepoTags := fun e =>
        h ((IsAgentImageLoaded.repoTags_iff name image.RepoTags).2 e)
      simp [IsAgentImageLoaded.images, h, ih, hm]

theorem IsAgentImageLoaded_of_ok {σ : Type} (c : Client σ) (s s1 : σ)
    (images : List godocker.APIImages)
    (h : c.docker.ListImages { All := true } s = (.ok images, s1)) :
    IsAgentImageLoaded c s =
      { result := (IsAgentImageLoaded.images c.cfg.AgentImageName images, none),
        calls := [Call.ListImages { All := true }], state := s1 } := by
  unfold IsAgentImageLoaded
  rw [h]

theorem IsAgentImageLoaded_of_error {σ : Type} (c : Client σ) (s s1 : σ) (e : error)
    (h : c.docker.ListImages { All := true } s = (.error e, s1)) :
    IsAgentImageLoaded c s =
      { result := (false, some e), calls := [Call.ListImages { All := true }], state := s1 } := by
  unfold IsAgentImageLoaded
  rw [h]

theorem findAgentContainer.names_iff (name : Str) (names : List Str) :
    findAgentContainer.names name names = true ↔ name ∈ names := by
  induction names with
  | nil => simp [findAgentContainer.names]
  | cons t rest ih =>
    by_cases h : t = name
    · simp [findAgentContainer.names, h]
    · simp [findAgentContainer.names, h, ih, Ne.symm h]

theorem findAgentContainer.containers_of_no_match (name : Str)
    (containers : List godocker.APIContainers)
    (h : ∀ container ∈ containers, name ∉ container.Names) :
    findAgentContainer.containers name containers = [] := by
  induction containers with
  | nil => rfl
  | cons ct rest ih =>
    have h1 : findAgentContainer.names name ct.Names = false := by
      cases hn : findAgentContainer.names name ct.Names with
      | false => rfl
      | true =>
        exact absurd ((findAgentContainer.names_iff name ct.Names).1 hn)
          (h ct (List.mem_cons_self _ _))
    simp only [findAgentContainer.containers, h1]
    exact ih (fun container hc => h container (List.mem_cons_of_mem _ hc))

theorem findAgentContainer.containers_of_first (name : Str)
    (before : List godocker.APIContainers) (ct : godocker.APIContainers)
    (after : List godocker.APIContainers)
    (hbefore : ∀ container ∈ before, name ∉ container.Names) (hname : name ∈ ct.Names) :
    findAgentContainer.containers name (before ++ ct :: after) = ct.ID := by
  induction before with
  | nil =>
    simp [findAgentContainer.containers, (findAgentContainer.names_iff name ct.Names).2 hname]
  | cons b rest ih =>
    have h1 : findAgentContainer.names name b.Names = false := by
      cases hn : findAgentContainer.names name b.Names with
      | false => rfl
      | true =>
        exact absurd ((findAgentContainer.names_iff name b.Names).1 hn)
          (hbefore b (List.mem_cons_self _ _))
    simp only [List.cons_append, findAgentContainer.containers, h1]
    exact ih (fun container hc => hbefore container (List.mem_cons_of_mem _ hc))

theorem findAgentContainer_of_ok {σ : Type} (c : Client σ) (s s1 : σ)
    (containers : List godocker.APIContainers)
    (h : c.docker.ListContainers findAgentContainer.opts s = (.ok containers, s1)) :
    findAgentContainer c s =
      { result :=
          (findAgentContainer.containers ("/".toList ++ config.AgentContainerName) containers,
            none),
        calls := [Call.ListContainers findAgentContainer.opts], state := s1 } := by
  unfold findAgentContainer
  rw [h]

theorem findAgentContainer_of_error {σ : Type} (c : Client σ) (s s1 : σ) (e : error)
    (h : c.docker.ListContainers findAgentContainer.opts s = (.error e, s1)) :
    findAgentContainer c s =
      { result := ([], some e), calls := [Call.ListContainers findAgentContainer.opts],
        state := s1 } := by
  unfold findAgentContainer
  rw [h]

theorem RemoveExistingAgentContainer_of_error {σ : Type} (c : Client σ) (s s1 : σ) (e : error)
    (h : c.docker.ListContainers findAgentContainer.opts s = (.error e, s1)) :
    RemoveExistingAgentContainer c s =
      { result := some e, calls := [Call.ListContainers findAgentContainer.opts],
        state := s1 } := by
  unfold RemoveExistingAgentContainer
  rw [findAgentContainer_of_error c s s1 e h]

theorem RemoveExistingAgentContainer_of_none {σ : Type} (c : Client σ) (s s1 : σ)
    (containers : List godocker.APIContainers)
    (h : c.docker.ListContainers findAgentContainer.opts s = (.ok containers, s1))
    (hid : findAgentContainer.containers ("/".toList ++ config.AgentContainerName) containers
      = []) :
    RemoveExistingAgentContainer c s =
      { result := none, calls := [Call.ListContainers findAgentContainer.opts],
        state := s1 } := by
  unfold RemoveExistingAgentContainer
  rw [findAgentContainer_of_ok c s s1 containers h, hid]
  simp

theorem RemoveExistingAgentContainer_of_id {σ : Type} (c : Client σ) (s s1 : σ)
    (containers : List godocker.APIContainers) (id : Str)
    (h : c.docker.ListContainers findAgentContainer.opts s = (.ok containers, s1))
    (hid : findAgentContainer.containers ("/".toList ++ config.AgentContainerName) containers
      = id)
    (hne : id ≠ []) :
    RemoveExistingAgentContainer c s =
      { result := (c.docker.RemoveContainer { ID := id, Force := true } s1).1,
        calls := [Call.ListContainers findAgentContainer.opts,
          Call.RemoveContainer { ID := id, Force := true }],
        state := (c.docker.RemoveContainer { ID := id, Force := true } s1).2 } := by
  unfold RemoveExistingAgentContainer
  rw [findAgentContainer_of_ok c s s1 containers h, hid]
  simp [hne]

theorem StopAgent_of_error {σ : Type} (c : Client σ) (s s1 : σ) (e : error)
    (h : c.docker.ListContainers findAgentContainer.opts s = (.error e, s1)) :
    StopAgent c s =
      { result := some e, calls := [Call.ListContainers findAgentContainer.opts],
        state := s1 } := by
  unfold StopAgent
  rw [findAgentContainer_of_error c s s1 e h]

theorem StopAgent_of_none {σ : Type} (c : Client σ) (s s1 : σ)
    (containers : List godocker.APIContainers)
    (h : c.docker.ListContainers findAgentContainer.opts s = (.ok containers, s1))
    (hid : findAgentContainer.containers ("/".toList ++ config.AgentContainerName) containers
      = []) :
    StopAgent c s =
      { result := none, calls := [Call.ListContainers findAgentContainer.opts],
        state := s1 } := by
  unfold StopAgent
  rw [findAgentContainer_of_ok c s s1 containers h, hid]
  simp

theorem StopAgent_of_id {σ : Type} (c : Client σ) (s s1 : σ)
    (containers : List godocker.APIContainers) (id : Str)
    (h : c.docker.ListContainers findAgentContainer.opts s = (.ok containers, s1))
    (hid : findAgentContainer.containers ("/".toList ++ config.AgentContainerName) containers
      = id)
    (hne : id ≠ []) :
    StopAgent c s =
      { result := (c.docker.StopContainer id 10 s1).1,
        calls := [Call.ListContainers findAgentContainer.opts, Call.StopContainer id 10],
        state := (c.docker.StopContainer id 10 s1).2 } := by
  unfold StopAgent
  rw [findAgentContainer_of_ok c s s1 containers h, hid]
  simp [hne]

/-! ## The statements of the specification on images and containers -/

/-- C11: for an image list that `ListImages` with `All = true` returns without error,
`IsAgentImageLoaded` returns `(true, nil)` if and only if the tags of some image hold
the configured agent image name, and `(false, nil)` otherwise; `ListImages` is its only
runtime call. -/
theorem IsAgentImageLoaded_iff_tagged {σ : Type} (c : Client σ) (s s1 : σ)
    (images : List godocker.APIImages)
    (hlist : c.docker.ListImages { All := true } s = (.ok images, s1)) :
    ((IsAgentImageLoaded c s).result = (true, none) ↔
        ∃ image ∈ images, c.cfg.AgentImageName ∈ image.RepoTags) ∧
      ((¬ ∃ image ∈ images, c.cfg.AgentImageName ∈ image.RepoTags) →
        (IsAgentImageLoaded c s).result = (false, none)) ∧
      (IsAgentImageLoaded c s).calls = [Call.ListImages { All := true }] := by
  rw [IsAgentImageLoaded_of_ok c s s1 images hlist]
  refine ⟨?_, ?_, rfl⟩
  · rw [← IsAgentImageLoaded.images_iff]
    simp
  · intro h
    rw [← IsAgentImageLoaded.images_iff] at h
    simp only [Bool.not_eq_true] at h
    simp [h]

theorem IsAgentImageLoaded_iff_tagged_witness :
    (IsAgentImageLoaded (listingClient (.ok [{ RepoTags := ["".toList] }]) (.ok []) none none)
        ()).result = (false, none) ∧
      (IsAgentImageLoaded (listingClient
        (.ok [{ RepoTags := ["amazon/amazon-ecs-agent:latest".toList] }]) (.ok []) none none)
        ()).result = (true, none) :=
  ⟨(IsAgentImageLoaded_iff_tagged
      (listingClient (.ok [{ RepoTags := ["".toList] }]) (.ok []) none none) () ()
      [{ RepoTags := ["".toList] }] rfl).2.1 (by decide),
    (IsAgentImageLoaded_iff_tagged
      (listingClient (.ok [{ RepoTags := ["amazon/amazon-ecs-agent:latest".toList] }]) (.ok [])
        none none) () ()
      [{ RepoTags := ["amazon/amazon-ecs-agent:latest".toList] }] rfl).1.2
      ⟨{ RepoTags := ["amazon/amazon-ecs-agent:latest".toList] }, by decide, by decide⟩⟩

/-- C12: when the image listing fails with the error `e`, `IsAgentImageLoaded` returns
`false` together with `e`. -/
theorem IsAgentImageLoaded_list_failure {σ : Type} (c : Client σ) (s s1 : σ) (e : error)
    (hlist : c.docker.ListImages { All := true } s = (.error e, s1)) :
    (IsAgentImageLoaded c s).result = (false, some e) := by
  rw [IsAgentImageLoaded_of_error c s s1 e hlist]

theorem IsAgentImageLoaded_list_failure_witness :
    (IsAgentImageLoaded (listingClient (.error ⟨"test error"⟩) (.ok []) none none) ()).result =
      (false, some ⟨"test error"⟩) :=
  IsAgentImageLoaded_list_failure (listingClient (.error ⟨"test error"⟩) (.ok []) none none)
    () () ⟨"test error"⟩ rfl

/-- C13: when the container listing succeeds and no listed container has a name equal
to `/` followed by the agent container name (the empty listing included),
`RemoveExistingAgentContainer` returns no error and issues no `RemoveContainer` call. -/
theorem RemoveExistingAgentContainer_none_found {σ : Type} (c : Client σ) (s s1 : σ)
    (containers : List godocker.APIContainers)
    (hlist : c.docker.ListContainers findAgentContainer.opts s = (.ok containers, s1))
    (hnone : ∀ container ∈ containers,
      "/".toList ++ config.AgentContainerName ∉ container.Names) :
    (RemoveExistingAgentContainer c s).result = none ∧
      (∀ opts, Call.RemoveContainer opts ∉ (RemoveExistingAgentContainer c s).calls) ∧
      (RemoveExistingAgentContainer c s).calls = [Call.ListContainers findAgentContainer.opts] := by
  rw [RemoveExistingAgentContainer_of_none c s s1 containers hlist
    (findAgentContainer.containers_of_no_match _ _ hnone)]
  simp

theorem RemoveExistingAgentContainer_none_found_witness :
    (RemoveExistingAgentContainer (listingClient (.ok []) (.ok []) (some ⟨"remove error"⟩) none)
        ()).result = none ∧
      (∀ opts, Call.RemoveContainer opts ∉
        (RemoveExistingAgentContainer
          (listingClient (.ok []) (.ok []) (some ⟨"remove error"⟩) none) ()).calls) ∧
      (RemoveExistingAgentContainer (listingClient (.ok []) (.ok []) (some ⟨"remove error"⟩) none)
        ()).calls = [Call.ListContainers findAgentContainer.opts] :=
  RemoveExistingAgentContainer_none_found
    (listingClient (.ok []) (.ok []) (some ⟨"remove error"⟩) none) () () [] rfl (by decide)

/-- C14, as amended: when the first listed container that has a name equal to `/`
followed by the agent container name has a non-empty identifier,
`RemoveExistingAgentContainer` issues exactly one `RemoveContainer` call, for that
identifier with `Force = true`, and returns the result of that call. -/
theorem RemoveExistingAgentContainer_first_match {σ : Type} (c : Client σ) (s s1 : σ)
    (before : List godocker.APIContainers) (container : godocker.APIContainers)
    (after : List godocker.APIContainers)
    (hlist : c.docker.ListContainers findAgentContainer.opts s =
      (.ok (before ++ container :: after), s1))
    (hbefore : ∀ earlier ∈ before, "/".toList ++ config.AgentContainerName ∉ earlier.Names)
    (hname : "/".toList ++ config.AgentContainerName ∈ container.Names)
    (hid : container.ID ≠ []) :
    (RemoveExistingAgentContainer c s).calls =
        [Call.ListContainers findAgentContainer.opts,
          Call.RemoveContainer { ID := container.ID, Force := true }] ∧
      (RemoveExistingAgentContainer c s).result =
        (c.docker.RemoveContainer { ID := container.ID, Force := true } s1).1 ∧
      (RemoveExistingAgentContainer c s).state =
        (c.docker.RemoveContainer { ID := container.ID, Force := true } s1).2 := by
  rw [RemoveExistingAgentContainer_of_id c s s1 _ container.ID hlist
    (findAgentContainer.containers_of_first _ before container after hbefore hname) hid]
  exact ⟨rfl, rfl, rfl⟩

theorem RemoveExistingAgentContainer_first_match_witness :
    (RemoveExistingAgentContainer
        (listingClient (.ok []) (.ok [{ ID := "id".toList, Names := ["/ecs-agent".toList] }])
          (some ⟨"remove error"⟩) none) ()).calls =
        [Call.ListContainers findAgentContainer.opts,
          Call.RemoveContainer { ID := "id".toList, Force := true }] ∧
      (RemoveExistingAgentContainer
        (listingClient (.ok []) (.ok [{ ID := "id".toList, Names := ["/ecs-agent".toList] }])
          (some ⟨"remove error"⟩) none) ()).result = some ⟨"remove error"⟩ ∧
      (RemoveExistingAgentContainer
        (listingClient (.ok []) (.ok [{ ID := "id".toList, Names := ["/ecs-agent".toList] }])
          (some ⟨"remove error"⟩) none) ()).state = () :=
  RemoveExistingAgentContainer_first_match
    (listingClient (.ok []) (.ok [{ ID := "id".toList, Names := ["/ecs-agent".toList] }])
      (some ⟨"remove error"⟩) none) () ()
    [] { ID := "id".toList, Names := ["/ecs-agent".toList] } [] rfl (by decide) (by decide)
    (by decide)

/-- C14, as stated, fails.  A listing that includes a container named `/ecs-agent` with
the non-empty identifier `id`, behind a container of the same name with the empty
identifier, leads to no `RemoveContainer` call and the result `nil`; behind a container of the same name with the
identifier `other`, it leads to the one call for `other` and none for `id`. -/
theorem RemoveExistingAgentContainer_later_match_kept :
    ((∃ container ∈ ([{ ID := "".toList, Names := ["/ecs-agent".toList] },
          { ID := "id".toList, Names := ["/ecs-agent".toList] }] : List godocker.APIContainers),
        "/".toList ++ config.AgentContainerName ∈ container.Names ∧ container.ID ≠ []) ∧
      (∀ opts, Call.RemoveContainer opts ∉
        (RemoveExistingAgentContainer
          (listingClient (.ok [])
            (.ok [{ ID := "".toList, Names := ["/ecs-agent".toList] },
              { ID := "id".toList, Names := ["/ecs-agent".toList] }]) none none) ()).calls) ∧
      (RemoveExistingAgentContainer
        (listingClient (.ok [])
          (.ok [{ ID := "".toList, Names := ["/ecs-agent".toList] },
            { ID := "id".toList, Names := ["/ecs-agent".toList] }]) none none) ()).result =
        none) ∧
    (RemoveExistingAgentContainer
        (listingClient (.ok [])
          (.ok [{ ID := "other".toList, Names := ["/ecs-agent".toList] },
            { ID := "id".toList, Names := ["/ecs-agent".toList] }]) none none) ()).calls =
      [Call.ListContainers findAgentContainer.opts,
        Call.RemoveContainer { ID := "other".toList, Force := true }] := by
  refine ⟨⟨⟨{ ID := "id".toList, Names := ["/ecs-agent".toList] }, by decide, by decide,
    by decide⟩, ?_, rfl⟩, rfl⟩
  intro opts hmem
  have hcalls : (RemoveExistingAgentContainer
      (listingClient (.ok [])
        (.ok [{ ID := "".toList, Names := ["/ecs-agent".toList] },
          { ID := "id".toList, Names := ["/ecs-agent".toList] }]) none none) ()).calls =
      [Call.ListContainers findAgentContainer.opts] := rfl
  rw [hcalls] at hmem
  simp at hmem

/-- C15: when the container listing succeeds and no listed container carries the name
`/` followed by the agent container name, `StopAgent` returns no error and issues no
`StopContainer` call. -/
theorem StopAgent_none_found {σ : Type} (c : Client σ) (s s1 : σ)
    (containers : List godocker.APIContainers)
    (hlist : c.docker.ListContainers findAgentContainer.opts s = (.ok containers, s1))
    (hnone : ∀ container ∈ containers,
      "/".toList ++ config.AgentContainerName ∉ container.Names) :
    (StopAgent c s).result = none ∧
      (∀ id timeout, Call.StopContainer id timeout ∉ (StopAgent c s).calls) ∧
      (StopAgent c s).calls = [Call.ListContainers findAgentContainer.opts] := by
  rw [StopAgent_of_none c s s1 containers hlist
    (findAgentContainer.containers_of_no_match _ _ hnone)]
  simp

theorem StopAgent_none_found_witness :
    (StopAgent (listingClient (.ok []) (.ok [{ ID := [], Names := [] }]) none
        (some ⟨"stop error"⟩)) ()).result = none ∧
      (∀ id timeout, Call.StopContainer id timeout ∉
        (StopAgent (listingClient (.ok []) (.ok [{ ID := [], Names := [] }]) none
          (some ⟨"stop error"⟩)) ()).calls) ∧
      (StopAgent (listingClient (.ok []) (.ok [{ ID := [], Names := [] }]) none
        (some ⟨"stop error"⟩)) ()).calls = [Call.ListContainers findAgentContainer.opts] :=
  StopAgent_none_found
    (listingClient (.ok []) (.ok [{ ID := [], Names := [] }]) none (some ⟨"stop error"⟩)) () ()
    [{ ID := [], Names := [] }] rfl (by decide)

/-- C16, as amended: when the first listed container that has a name equal to `/`
followed by the agent container name has a non-empty identifier, `StopAgent` issues
exactly one `StopContainer` call, for that identifier with a timeout of 10 seconds, and
returns the result of that call. -/
theorem StopAgent_first_match {σ : Type} (c : Client σ) (s s1 : σ)
    (before : List godocker.APIContainers) (container : godocker.APIContainers)
    (after : List godocker.APIContainers)
    (hlist : c.docker.ListContainers findAgentContainer.opts s =
      (.ok (before ++ container :: after), s1))
    (hbefore : ∀ earlier ∈ before, "/".toList ++ config.AgentContainerName ∉ earlier.Names)
    (hname : "/".toList ++ config.AgentContainerName ∈ container.Names)
    (hid : container.ID ≠ []) :
    (StopAgent c s).calls =
        [Call.ListContainers findAgentContainer.opts, Call.StopContainer container.ID 10] ∧
      (StopAgent c s).result = (c.docker.StopContainer container.ID 10 s1).1 ∧
      (StopAgent c s).state = (c.docker.StopContainer container.ID 10 s1).2 := by
  rw [StopAgent_of_id c s s1 _ container.ID hlist
    (findAgentContainer.containers_of_first _ before container after hbefore hname) hid]
  exact ⟨rfl, rfl, rfl⟩

theorem StopAgent_first_match_witness :
    (StopAgent
        (listingClient (.ok []) (.ok [{ ID := "id".toList, Names := ["/ecs-agent".toList] }])
          none (some ⟨"stop error"⟩)) ()).calls =
        [Call.ListContainers findAgentContainer.opts, Call.StopContainer "id".toList 10] ∧
      (StopAgent
        (listingClient (.ok []) (.ok [{ ID := "id".toList, Names := ["/ecs-agent".toList] }])
          none (some ⟨"stop error"⟩)) ()).result = some ⟨"stop error"⟩ ∧
      (StopAgent
        (listingClient (.ok []) (.ok [{ ID := "id".toList, Names := ["/ecs-agent".toList] }])
          none (some ⟨"stop error"⟩)) ()).state = () :=
  StopAgent_first_match
    (listingClient (.ok []) (.ok [{ ID := "id".toList, Names := ["/ecs-agent".toList] }])
      none (some ⟨"stop error"⟩)) () ()
    [] { ID := "id".toList, Names := ["/ecs-agent".toList] } [] rfl (by decide) (by decide)
    (by decide)

/-- C16, as stated, fails.  A listing that includes a container named `/ecs-agent` with
the non-empty identifier `id`, behind a container of the same name with the empty
identifier, leads to no `StopContainer` call and the result `nil`; behind a container of the same name with the
identifier `other`, it leads to the one call for `other` and none for `id`. -/
theorem StopAgent_later_match_kept :
    ((∃ container ∈ ([{ ID := "".toList, Names := ["/ecs-agent".toList] },
          { ID := "id".toList, Names := ["/ecs-agent".toList] }] : List godocker.APIContainers),
        "/".toList ++ config.AgentContainerName ∈ container.Names ∧ container.ID ≠ []) ∧
      (∀ id timeout, Call.StopContainer id timeout ∉
        (StopAgent
          (listingClient (.ok [])
            (.ok [{ ID := "".toList, Names := ["/ecs-agent".toList] },
              { ID := "id".toList, Names := ["/ecs-agent".toList] }]) none none) ()).calls) ∧
      (StopAgent
        (listingClient (.ok [])
          (.ok [{ ID := "".toList, Names := ["/ecs-agent".toList] },
            { ID := "id".toList, Names := ["/ecs-agent".toList] }]) none none) ()).result =
        none) ∧
    (StopAgent
        (listingClient (.ok [])
          (.ok [{ ID := "other".toList, Names := ["/ecs-agent".toList] },
            { ID := "id".toList, Names := ["/ecs-agent".toList] }]) none none) ()).calls =
      [Call.ListContainers findAgentContainer.opts, Call.StopContainer "other".toList 10] := by
  refine ⟨⟨⟨{ ID := "id".toList, Names := ["/ecs-agent".toList] }, by decide, by decide,
    by decide⟩, ?_, rfl⟩, rfl⟩
  intro id timeout hmem
  have hcalls : (StopAgent
      (listingClient (.ok [])
        (.ok [{ ID := "".toList, Names := ["/ecs-agent".toList] },
          { ID := "id".toList, Names := ["/ecs-agent".toList] }]) none none) ()).calls =
      [Call.ListContainers findAgentContainer.opts] := rfl
  rw [hcalls] at hmem
  simp at hmem

/-- C17: when the container listing fails with the error `e`,
`RemoveExistingAgentContainer` and `StopAgent` each return `e`, and neither issues a
`RemoveContainer` or a `StopContainer` call. -/
theorem list_containers_failure {σ : Type} (c : Client σ) (s s1 : σ) (e : error)
    (hlist : c.docker.ListContainers findAgentContainer.opts s = (.error e, s1)) :
    (RemoveExistingAgentContainer c s).result = some e ∧
      (StopAgent c s).result = some e ∧
      (∀ opts, Call.RemoveContainer opts ∉ (RemoveExistingAgentContainer c s).calls ∧
        Call.RemoveContainer opts ∉ (StopAgent c s).calls) ∧
      (∀ id timeout, Call.StopContainer id timeout ∉ (RemoveExistingAgentContainer c s).calls ∧
        Call.StopContainer id timeout ∉ (StopAgent c s).calls) := by
  rw [RemoveExistingAgentContainer_of_error c s s1 e hlist, StopAgent_of_error c s s1 e hlist]
  simp

theorem list_containers_failure_witness :
    (RemoveExistingAgentContainer
        (listingClient (.ok []) (.error ⟨"test error"⟩) none none) ()).result =
        some ⟨"test error"⟩ ∧
      (StopAgent (listingClient (.ok []) (.error ⟨"test error"⟩) none none) ()).result =
        some ⟨"test error"⟩ :=
  have h := list_containers_failure
    (listingClient (.ok []) (.error ⟨"test error"⟩) none none) () () ⟨"test error"⟩ rfl
  ⟨h.1, h.2.1⟩

/-- C18: with the runtime socket at a path other than `/var/run/docker.sock`, the bind
list of `getHostConfig` holds the socket bound to `/var/run/docker.sock`, not to its own
path; the binds of the log, data, agent configuration and cache directories are
there. -/
theorem getHostConfig_socket_bind :
    "/run/user/1000/docker.sock:/var/run/docker.sock".toList ∈
        (getHostConfig otherSocketClient).Binds ∧
      "/run/user/1000/docker.sock:/run/user/1000/docker.sock".toList ∉
        (getHostConfig otherSocketClient).Binds ∧
      "/var/log/ecs:/log".toList ∈ (getHostConfig otherSocketClient).Binds ∧
      "/var/lib/ecs/data:/data".toList ∈ (getHostConfig otherSocketClient).Binds ∧
      "/etc/ecs:/etc/ecs".toList ∈ (getHostConfig otherSocketClient).Binds ∧
      "/var/cache/ecs:/var/cache/ecs".toList ∈ (getHostConfig otherSocketClient).Binds := by
  refine ⟨?_, ?_, ?_, ?_, ?_, ?_⟩ <;> decide

/-- C19: the bind list of `getHostConfig` has seven entries; its read-only binds are
those of the cgroup directory and of the exec-driver directory, and it has no bind of
the host proc filesystem, of an iptables directory or of a plugin directory. -/
theorem getHostConfig_binds :
    (getHostConfig (exampleClientOf [])).Binds =
      [ "/var/run/docker.sock:/var/run/docker.sock".toList,
        "/var/log/ecs:/log".toList,
        "/var/lib/ecs/data:/data".toList,
        "/etc/ecs:/etc/ecs".toList,
        "/var/cache/ecs:/var/cache/ecs".toList,
        "/sys/fs/cgroup:/sys/fs/cgroup:ro".toList,
        "/var/run/docker/execdriver:/var/lib/docker/execdriver:ro".toList ] := by
  decide

/-- C20: the host configuration that `StartAgent` passes to `CreateContainer` adds no
capability: its `CapAdd` is empty for every client. -/
theorem StartAgent_adds_no_capability {σ : Type} (c : Client σ) (s : σ) :
    (StartAgent.opts c).HostConfig.CapAdd = [] ∧
      (StartAgent c s).calls.head? = some (Call.CreateContainer (StartAgent.opts c)) :=
  ⟨rfl, StartAgent_calls_head c s⟩

/-! ## The statements of the specification on ports, devices and the container search -/

/-- C21: the agent introspection port `51678/tcp` is the only exposed port of the
container configuration; in the host configuration it is the only bound port and has
exactly one binding, with host IP `127.0.0.1` and host port `51678`; no binding has an
empty host IP or the host IP `0.0.0.0`. -/
theorem introspection_port_on_loopback {σ : Type} (c : Client σ) :
    (getContainerConfig c).ExposedPorts = ["51678/tcp".toList] ∧
      (getHostConfig c).PortBindings =
        [("51678/tcp".toList, [{ HostIP := "127.0.0.1".toList, HostPort := "51678".toList }])] ∧
      (∀ port ∈ (getHostConfig c).PortBindings, ∀ binding ∈ port.2,
        binding.HostIP ≠ [] ∧ binding.HostIP ≠ "0.0.0.0".toList) ∧
      (StartAgent.opts c).Config.ExposedPorts = (getContainerConfig c).ExposedPorts ∧
      (StartAgent.opts c).HostConfig.PortBindings = (getHostConfig c).PortBindings := by
  refine ⟨rfl, rfl, ?_, rfl, rfl⟩
  intro port hport binding hbinding
  have hp : (getHostConfig c).PortBindings =
      [("51678/tcp".toList, [{ HostIP := "127.0.0.1".toList, HostPort := "51678".toList }])] :=
    rfl
  rw [hp, List.mem_singleton] at hport
  subst hport
  rw [List.mem_singleton] at hbinding
  subst hbinding
  exact ⟨by decide, by decide⟩

/-- C22: with `ECS_ENABLE_GPU_SUPPORT=true` in the layered environment, the bind list of
`getHostConfig` is the list of the seven fixed binds, whatever devices the host has: it
holds no bind of a GPU-info directory.  `StartAgent` raises no error. -/
theorem getHostConfig_without_gpu_bind :
    "ECS_ENABLE_GPU_SUPPORT=true".toList ∈
        (getContainerConfig (exampleClientOf [(exampleConfig.AgentConfigFile,
          "\nECS_ENABLE_GPU_SUPPORT=true\n".toList)])).Env ∧
      (getHostConfig (exampleClientOf [(exampleConfig.AgentConfigFile,
          "\nECS_ENABLE_GPU_SUPPORT=true\n".toList)])).Binds =
        [ "/var/run/docker.sock:/var/run/docker.sock".toList,
          "/var/log/ecs:/log".toList,
          "/var/lib/ecs/data:/data".toList,
          "/etc/ecs:/etc/ecs".toList,
          "/var/cache/ecs:/var/cache/ecs".toList,
          "/sys/fs/cgroup:/sys/fs/cgroup:ro".toList,
          "/var/run/docker/execdriver:/var/lib/docker/execdriver:ro".toList ] ∧
      (StartAgent (exampleClientOf [(exampleConfig.AgentConfigFile,
          "\nECS_ENABLE_GPU_SUPPORT=true\n".toList)]) ()).err = none := by
  refine ⟨?_, ?_, rfl⟩ <;> decide

/-- C26: for a successfully listed sequence of containers, `findAgentContainer` returns
the identifier of the first container, in list order, that has a name equal to
`/ecs-agent`, and the empty identifier when no container has such a name; so
`RemoveExistingAgentContainer` and `StopAgent` issue at most one `RemoveContainer` and
at most one `StopContainer` call. -/
theorem findAgentContainer_first_match {σ : Type} (c : Client σ) (s s1 : σ)
    (containers : List godocker.APIContainers)
    (hlist : c.docker.ListContainers findAgentContainer.opts s = (.ok containers, s1)) :
    (∀ before container after, containers = before ++ container :: after →
        (∀ earlier ∈ before, "/ecs-agent".toList ∉ earlier.Names) →
        "/ecs-agent".toList ∈ container.Names →
        (findAgentContainer c s).result = (container.ID, none)) ∧
      ((∀ container ∈ containers, "/ecs-agent".toList ∉ container.Names) →
        (findAgentContainer c s).result = ([], none)) ∧
      (∀ call ∈ (RemoveExistingAgentContainer c s).calls,
        call = Call.ListContainers findAgentContainer.opts ∨
          call = Call.RemoveContainer
            { ID := (findAgentContainer c s).result.1, Force := true }) ∧
      (∀ call ∈ (StopAgent c s).calls,
        call = Call.ListContainers findAgentContainer.opts ∨
          call = Call.StopContainer (findAgentContainer c s).result.1 10) ∧
      (RemoveExistingAgentContainer c s).calls.length ≤ 2 ∧
      (StopAgent c s).calls.length ≤ 2 := by
  have hname : "/".toList ++ config.AgentContainerName = "/ecs-agent".toList := by decide
  have hfind := findAgentContainer_of_ok c s s1 containers hlist
  rw [hname] at hfind
  refine ⟨?_, ?_, ?_⟩
  · intro before container after hsplit hbefore hmatch
    rw [hfind, hsplit, findAgentContainer.containers_of_first _ before container after hbefore
      hmatch]
  · intro hnone
    rw [hfind, findAgentContainer.containers_of_no_match _ _ hnone]
  · by_cases hid : findAgentContainer.containers "/ecs-agent".toList containers = []
    · have hid2 : findAgentContainer.containers ("/".toList ++ config.AgentContainerName)
          containers = [] := by rw [hname]; exact hid
      rw [RemoveExistingAgentContainer_of_none c s s1 containers hlist hid2,
        StopAgent_of_none c s s1 containers hlist hid2]
      simp
    · have hid2 : findAgentContainer.containers ("/".toList ++ config.AgentContainerName)
          containers ≠ [] := by rw [hname]; exact hid
      rw [RemoveExistingAgentContainer_of_id c s s1 containers _ hlist rfl hid2,
        StopAgent_of_id c s s1 containers _ hlist rfl hid2, hfind, hname]
      simp

theorem findAgentContainer_first_match_witness :
    (findAgentContainer
        (listingClient (.ok [])
          (.ok [{ ID := "x".toList, Names := ["/ecs-agent-2".toList, "ecs-agent".toList] },
            { ID := "a".toList, Names := ["/other".toList, "/ecs-agent".toList] },
            { ID := "b".toList, Names := ["/ecs-agent".toList] }]) none none) ()).result =
      ("a".toList, none) :=
  (findAgentContainer_first_match
    (listingClient (.ok [])
      (.ok [{ ID := "x".toList, Names := ["/ecs-agent-2".toList, "ecs-agent".toList] },
        { ID := "a".toList, Names := ["/other".toList, "/ecs-agent".toList] },
        { ID := "b".toList, Names := ["/ecs-agent".toList] }]) none none) () ()
    [{ ID := "x".toList, Names := ["/ecs-agent-2".toList, "ecs-agent".toList] },
      { ID := "a".toList, Names := ["/other".toList, "/ecs-agent".toList] },
      { ID := "b".toList, Names := ["/ecs-agent".toList] }] rfl).1
    [{ ID := "x".toList, Names := ["/ecs-agent-2".toList, "ecs-agent".toList] }]
    { ID := "a".toList, Names := ["/other".toList, "/ecs-agent".toList] }
    [{ ID := "b".toList, Names := ["/ecs-agent".toList] }] rfl (by decide) (by decide)

/-! ## Lemmas on rendering and padding override files -/

theorem dropWhile_isSpace_head (l : Str) (ch : Char)
    (h : (l.dropWhile isSpace).head? = some ch) : isSpace ch = false := by
  induction l with
  | nil => simp at h
  | cons x xs ih =>
    by_cases hx : isSpace x = true
    · have e : (x :: xs).dropWhile isSpace = xs.dropWhile isSpace := by
        simp [List.dropWhile, hx]
      rw [e] at h
      exact ih h
    · have e : (x :: xs).dropWhile isSpace = x :: xs := by
        simp [List.dropWhile, hx]
      rw [e] at h
      simp only [List.head?_cons, Option.some.injEq] at h
      rw [← h]
      simpa using hx

theorem rdropWhile_isSpace_getLast (l : Str) (ch : Char)
    (h : (l.rdropWhile isSpace).getLast? = some ch) : isSpace ch = false := by
  induction l using List.reverseRecOn with
  | nil => simp at h
  | append_singleton xs x ih =>
    rw [List.rdropWhile_concat] at h
    by_cases hx : isSpace x = true
    · rw [if_pos hx] at h
      exact ih h
    · rw [if_neg hx] at h
      have hc : x = ch := by simpa using h
      rw [← hc]
      simpa using hx

theorem TrimSpace_head (l : Str) (ch : Char) (h : (TrimSpace l).head? = some ch) :
    isSpace ch = false := by
  unfold TrimSpace at h
  obtain ⟨t, ht⟩ := List.rdropWhile_prefix isSpace (l.dropWhile isSpace)
  apply dropWhile_isSpace_head l ch
  rw [← ht]
  cases hr : List.rdropWhile isSpace (l.dropWhile isSpace) with
  | nil => rw [hr] at h; simp at h
  | cons a r => rw [hr] at h; simpa using h

theorem TrimSpace_getLast (l : Str) (ch : Char) (h : (TrimSpace l).getLast? = some ch) :
    isSpace ch = false :=
  rdropWhile_isSpace_getLast _ ch h

theorem TrimSpace_eq_self (t : Str) (hhead : ∀ ch, t.head? = some ch → isSpace ch = false)
    (hlast : ∀ ch, t.getLast? = some ch → isSpace ch = false) : TrimSpace t = t := by
  have h1 : t.dropWhile isSpace = t := by
    cases t with
    | nil => rfl
    | cons x xs =>
      have hx := hhead x rfl
      simp [List.dropWhile, hx]
  have h2 : t.rdropWhile isSpace = t := by
    induction t using List.reverseRecOn with
    | nil => rfl
    | append_singleton L b _ =>
      have hb := hlast b (by simp)
      rw [List.rdropWhile_concat]
      simp [hb]
  unfold TrimSpace
  rw [h1, h2]

theorem TrimSpace_idempotent (l : Str) : TrimSpace (TrimSpace l) = TrimSpace l :=
  TrimSpace_eq_self _ (TrimSpace_head l) (TrimSpace_getLast l)

theorem TrimSpace_pad (a l b : Str) (ha : ∀ ch ∈ a, isSpace ch = true)
    (hb : ∀ ch ∈ b, isSpace ch = true) : TrimSpace (a ++ l ++ b) = TrimSpace l := by
  induction b using List.reverseRecOn with
  | nil =>
    rw [List.append_nil]
    induction a with
    | nil => rfl
    | cons x xs ih =>
      rw [List.cons_append, TrimSpace_cons_space x _ (ha x (List.mem_cons_self _ _))]
      exact ih (fun ch hch => ha ch (List.mem_cons_of_mem _ hch))
  | append_singleton ys y ih =>
    rw [← List.append_assoc, TrimSpace_snoc_space y _ (hb y (by simp))]
    exact ih (fun ch hch => hb ch (by simp [hch]))

theorem loadEnvVariables.entry_pad (a l b : Str) (ha : ∀ ch ∈ a, isSpace ch = true)
    (hb : ∀ ch ∈ b, isSpace ch = true) :
    loadEnvVariables.entry (a ++ l ++ b) = loadEnvVariables.entry l := by
  unfold loadEnvVariables.entry
  rw [TrimSpace_pad a l b ha hb]

theorem GoMap.set_of_not_mem (m : GoMap) (k v : Str) (h : k ∉ m.keys) :
    m.set k v = m ++ [(k, v)] := by
  induction m with
  | nil => rfl
  | cons p rest ih =>
    obtain ⟨a, b⟩ := p
    have h1 : a ≠ k := fun e => h (by simp [GoMap.keys, e])
    have h2 : k ∉ GoMap.keys rest := fun e => h (by
      simp only [GoMap.keys, List.map_cons]
      exact List.mem_cons_of_mem _ e)
    simp [GoMap.set, h1, ih h2]

theorem GoMap.setAll_of_nodup (m kvs : GoMap) (h : (m.keys ++ kvs.keys).Nodup) :
    m.setAll kvs = m ++ kvs := by
  induction kvs generalizing m with
  | nil => simp [GoMap.setAll]
  | cons p kvs ih =>
    have hp : p.1 ∉ m.keys := by
      intro hmem
      have := (List.nodup_append.1 h).2.2
      exact this hmem (by simp [GoMap.keys])
    rw [GoMap.setAll_cons, GoMap.set_of_not_mem m p.1 p.2 hp, ih]
    · simp
    · have e : (m ++ [(p.1, p.2)]).keys ++ GoMap.keys kvs = m.keys ++ GoMap.keys (p :: kvs) := by
        simp [GoMap.keys]
      rw [e]
      exact h

theorem GoMap.mem_setAll (m : GoMap) (kvs : List (Str × Str)) (k v : Str) (hn : m.keys.Nodup)
    (h : (k, v) ∈ m.setAll kvs) : (k, v) ∈ m ∨ (k, v) ∈ kvs := by
  have hget := GoMap.get?_of_mem _ k v (GoMap.nodup_keys_setAll m kvs hn) h
  rcases GoMap.get?_setAll_some m kvs k v hget with h1 | h1
  · exact Or.inl (GoMap.mem_of_get? m k v h1)
  · exact Or.inr h1

theorem GoMap.get?_of_perm (m p : GoMap) (hp : p.Perm m) (hn : m.keys.Nodup) (k : Str) :
    p.get? k = m.get? k := by
  have hnp : p.keys.Nodup := (List.Perm.nodup_iff (List.Perm.map Prod.fst hp)).2 hn
  cases hm : m.get? k with
  | some v =>
    exact GoMap.get?_of_mem p k v hnp (hp.mem_iff.2 (GoMap.mem_of_get? m k v hm))
  | none =>
    rw [GoMap.get?_eq_none] at hm ⊢
    intro hmem
    exact hm ((List.Perm.map Prod.fst hp).mem_iff.1 hmem)

/-- The entries of the map of a readable file: each is read off a line of the file. -/
theorem loadEnvVariables_mem {σ : Type} (c : Client σ) (file k v : Str)
    (hread : c.fs.ReadFile c.cfg.AgentConfigFile = .ok file)
    (h : (k, v) ∈ loadEnvVariables c) :
    ∃ l ∈ Split file '\n', TrimSpace l = k ++ '=' :: v ∧ '=' ∉ k := by
  rw [loadEnvVariables_of_read c file hread] at h
  rcases GoMap.mem_setAll [] _ k v (by simp [GoMap.keys]) h with h1 | h1
  · simp at h1
  · obtain ⟨l, hl, hentry⟩ := List.mem_filterMap.1 h1
    exact ⟨l, hl, (loadEnvVariables.entry_eq_some_iff l k v).1 hentry⟩

theorem loadEnvVariables.entry_envEntry_of_line (l k v : Str)
    (h : TrimSpace l = k ++ '=' :: v) (hk : '=' ∉ k) :
    loadEnvVariables.entry (envEntry k v) = some (k, v) := by
  rw [loadEnvVariables.entry_eq_some_iff, envEntry_eq, ← h]
  exact ⟨TrimSpace_idempotent l, hk⟩

theorem filterMap_map_of_some {α β : Type} (f : β → Option α) (g : α → β) (p : List α)
    (h : ∀ x ∈ p, f (g x) = some x) : (p.map g).filterMap f = p := by
  induction p with
  | nil => rfl
  | cons x xs ih =>
    rw [List.map_cons, List.filterMap_cons, h x (List.mem_cons_self _ _)]
    simp only
    rw [ih (fun y hy => h y (List.mem_cons_of_mem _ hy))]

theorem loadEnvVariables.filterMap_zipWith_pad (lines : List Str) (pads : List (Str × Str))
    (hlen : pads.length = lines.length)
    (hpads : ∀ pad ∈ pads, ∀ ch, ch ∈ pad.1 ∨ ch ∈ pad.2 → isSpace ch = true) :
    (List.zipWith (fun line pad => pad.1 ++ line ++ pad.2) lines pads).filterMap
        loadEnvVariables.entry =
      lines.filterMap loadEnvVariables.entry := by
  induction lines generalizing pads with
  | nil => simp
  | cons l ls ih =>
    cases pads with
    | nil => simp at hlen
    | cons pad pads =>
      have hp := hpads pad (List.mem_cons_self _ _)
      have he := loadEnvVariables.entry_pad pad.1 l pad.2 (fun ch hch => hp ch (Or.inl hch))
        (fun ch hch => hp ch (Or.inr hch))
      have hrest := ih pads (by simpa using hlen)
        (fun q hq => hpads q (List.mem_cons_of_mem _ hq))
      simp only [List.zipWith_cons_cons, List.filterMap_cons, he, hrest]

theorem getLast?_append_cons_concat {α : Type} (a : List α) (x : α) (vs : List α) (b : α) :
    (a ++ x :: (vs ++ [b])).getLast? = some b := by
  have e : a ++ x :: (vs ++ [b]) = (a ++ x :: vs) ++ [b] := by simp
  rw [e]
  exact List.getLast?_concat _

theorem zipWith_forall {α β γ : Type} (f : α → β → γ) (P : α → Prop) (Q : β → Prop)
    (R : γ → Prop) (hf : ∀ a b, P a → Q b → R (f a b)) (as : List α) (bs : List β)
    (ha : ∀ a ∈ as, P a) (hb : ∀ b ∈ bs, Q b) : ∀ x ∈ List.zipWith f as bs, R x := by
  induction as generalizing bs with
  | nil => simp
  | cons a as ih =>
    cases bs with
    | nil => simp
    | cons b bs =>
      intro x hx
      simp only [List.zipWith_cons_cons, List.mem_cons] at hx
      rcases hx with rfl | hx
      · exact hf a b (ha a (List.mem_cons_self _ _)) (hb b (List.mem_cons_self _ _))
      · exact ih bs (fun a' h' => ha a' (List.mem_cons_of_mem _ h'))
          (fun b' h' => hb b' (List.mem_cons_of_mem _ h')) x hx

theorem loadEnvVariables_entry_properties {σ : Type} (c : Client σ) (file k v : Str)
    (hread : c.fs.ReadFile c.cfg.AgentConfigFile = .ok file)
    (h : (k, v) ∈ loadEnvVariables c) :
    '=' ∉ k ∧ (∀ ch, k.head? = some ch → isSpace ch = false) ∧
      (∀ ch, v.getLast? = some ch → isSpace ch = false) ∧
      TrimSpace (envEntry k v) = envEntry k v ∧ '\n' ∉ envEntry k v := by
  obtain ⟨l, hl, htrim, hk⟩ := loadEnvVariables_mem c file k v hread h
  have hhead : ∀ ch, k.head? = some ch → isSpace ch = false := by
    intro ch hch
    apply TrimSpace_head l ch
    rw [htrim]
    cases k with
    | nil => simp at hch
    | cons a t => simpa using hch
  have hlast : ∀ ch, v.getLast? = some ch → isSpace ch = false := by
    intro ch hch
    apply TrimSpace_getLast l ch
    rw [htrim]
    induction v using List.reverseRecOn with
    | nil => simp at hch
    | append_singleton vs b _ =>
      have hb : b = ch := by simpa using hch
      rw [← hb]
      exact getLast?_append_cons_concat k '=' vs b
  refine ⟨hk, hhead, hlast, ?_, ?_⟩
  · rw [envEntry_eq, ← htrim]
    exact TrimSpace_idempotent l
  · rw [envEntry_eq, ← htrim]
    exact fun hmem => Split_not_mem file '\n' l hl (TrimSpace_subset l _ hmem)

/-! ## The statements of the specification on the form of override files -/

/-- C27: parsing is idempotent through rendering.  When the map that `loadEnvVariables`
returns for a file is rendered, in any order, as lines `key=value` joined by newlines,
parsing the rendered text returns the same map: the same entries, in the order of the
rendering, and the same value for every key.  No key of the map holds `=`, no key
starts with white space and no value ends with white space. -/
theorem loadEnvVariables_render_parse {σ τ : Type} (c : Client σ) (c' : Client τ)
    (file : Str) (rendered : List (Str × Str))
    (hread : c.fs.ReadFile c.cfg.AgentConfigFile = .ok file)
    (horder : rendered.Perm (loadEnvVariables c))
    (hread' : c'.fs.ReadFile c'.cfg.AgentConfigFile =
      .ok (Join (rendered.map (fun kv => envEntry kv.1 kv.2)) '\n')) :
    loadEnvVariables c' = rendered ∧
      (∀ k, (loadEnvVariables c').get? k = (loadEnvVariables c).get? k) ∧
      (∀ kv ∈ loadEnvVariables c, '=' ∉ kv.1 ∧
        (∀ ch, kv.1.head? = some ch → isSpace ch = false) ∧
        (∀ ch, kv.2.getLast? = some ch → isSpace ch = false)) := by
  have hprop : ∀ kv ∈ rendered, '=' ∉ kv.1 ∧ TrimSpace (envEntry kv.1 kv.2) = envEntry kv.1 kv.2
      ∧ '\n' ∉ envEntry kv.1 kv.2 := by
    intro kv hkv
    have h := loadEnvVariables_entry_properties c file kv.1 kv.2 hread (horder.mem_iff.1 hkv)
    exact ⟨h.1, h.2.2.2.1, h.2.2.2.2⟩
  have hnodup : (GoMap.keys rendered).Nodup :=
    (List.Perm.nodup_iff (List.Perm.map Prod.fst horder)).2 (loadEnvVariables_nodup_keys c)
  have hfirst : loadEnvVariables c' = rendered := by
    rw [loadEnvVariables_of_read c' _ hread']
    cases hr : rendered with
    | nil => rfl
    | cons kv rest =>
      rw [← hr, Split_Join _ _ (by rw [hr]; simp)]
      · rw [filterMap_map_of_some]
        · rw [GoMap.setAll_of_nodup [] rendered (by simpa [GoMap.keys] using hnodup)]
          rfl
        · intro x hx
          obtain ⟨h1, h2, _⟩ := hprop x hx
          rw [loadEnvVariables.entry_eq_some_iff, h2, envEntry_eq]
          exact ⟨rfl, h1⟩
      · intro l hl
        obtain ⟨x, hx, rfl⟩ := List.mem_map.1 hl
        exact (hprop x hx).2.2
  refine ⟨hfirst, ?_, ?_⟩
  · intro k
    rw [hfirst]
    exact GoMap.get?_of_perm _ _ horder (loadEnvVariables_nodup_keys c) k
  · intro kv hkv
    have h := loadEnvVariables_entry_properties c file kv.1 kv.2 hread hkv
    exact ⟨h.1, h.2.1, h.2.2.1⟩

theorem loadEnvVariables_render_parse_witness :
    loadEnvVariables (exampleClientOf [(exampleConfig.AgentConfigFile,
        "B = 2\nA=1=x".toList)]) =
      [("B ".toList, " 2".toList), ("A".toList, "1=x".toList)] :=
  (loadEnvVariables_render_parse
    (exampleClientOf [(exampleConfig.AgentConfigFile, "\n A=1=x \r\n\nnoise\nB = 2\n".toList)])
    (exampleClientOf [(exampleConfig.AgentConfigFile, "B = 2\nA=1=x".toList)])
    "\n A=1=x \r\n\nnoise\nB = 2\n".toList
    [("B ".toList, " 2".toList), ("A".toList, "1=x".toList)]
    rfl (by decide) rfl).1

theorem loadEnvVariables.entry_spaced (k ws1 ws2 v : Str) (hk : '=' ∉ k ++ ws1)
    (hhead : ∃ ch, k.head? = some ch ∧ isSpace ch = false)
    (hlast : ∃ ch, v.getLast? = some ch ∧ isSpace ch = false) :
    loadEnvVariables.entry (k ++ ws1 ++ "=".toList ++ ws2 ++ v) =
      some (k ++ ws1, ws2 ++ v) := by
  obtain ⟨a, ha, hsa⟩ := hhead
  obtain ⟨b, hb, hsb⟩ := hlast
  rw [loadEnvVariables.entry_eq_some_iff]
  refine ⟨?_, hk⟩
  have e : k ++ ws1 ++ "=".toList ++ ws2 ++ v = (k ++ ws1) ++ '=' :: (ws2 ++ v) := by
    simp [eqSign_toList]
  rw [e]
  apply TrimSpace_eq_self
  · intro ch hch
    cases k with
    | nil => simp at ha
    | cons x xs =>
      simp only [List.cons_append, List.head?_cons, Option.some.injEq] at hch ha
      rw [← hch, ha]
      exact hsa
  · intro ch hch
    induction v using List.reverseRecOn with
    | nil => simp at hb
    | append_singleton vs y _ =>
      have hy : y = b := by simpa using hb
      have e2 : k ++ ws1 ++ '=' :: (ws2 ++ (vs ++ [y])) =
          (k ++ ws1) ++ '=' :: ((ws2 ++ vs) ++ [y]) := by
        simp
      rw [e2, getLast?_append_cons_concat] at hch
      rw [← Option.some.inj hch, hy]
      exact hsb

theorem loadEnvVariables_of_spaced_line {ρ : Type} (c : Client ρ) (k ws1 ws2 v : Str)
    (hk : '=' ∉ k ++ ws1)
    (hhead : ∃ ch, k.head? = some ch ∧ isSpace ch = false)
    (hlast : ∃ ch, v.getLast? = some ch ∧ isSpace ch = false)
    (hnl : '\n' ∉ k ++ ws1 ++ ws2 ++ v)
    (hread : c.fs.ReadFile c.cfg.AgentConfigFile =
      .ok (k ++ ws1 ++ "=".toList ++ ws2 ++ v)) :
    loadEnvVariables c = [(k ++ ws1, ws2 ++ v)] := by
  have hnl' : '\n' ∉ k ++ ws1 ++ "=".toList ++ ws2 ++ v := by
    simp only [List.mem_append, not_or] at hnl ⊢
    exact ⟨⟨⟨hnl.1.1, by decide⟩, hnl.1.2⟩, hnl.2⟩
  rw [loadEnvVariables_of_read c _ hread, Split_of_not_mem _ _ hnl']
  simp only [List.filterMap_cons, List.filterMap_nil,
    loadEnvVariables.entry_spaced k ws1 ws2 v hk hhead hlast]
  rfl

/-- C28: the parser is invariant under white space at the ends of lines, not around `=`.
Adding spaces, tabs or carriage returns in front of and behind any lines of an override
file leaves the map of `loadEnvVariables` unchanged.  White space next to the first `=`
of a line stays in the key and in the value: the loop body `loadEnvVariables.line` turns
a line `k␣=␣v` into the entry with key `k␣` and value `␣v`, a file that is this one line
gives the map with exactly that entry, and the file `KEY = v` gives the map whose one
entry has the key `KEY ` and the value ` v`, so that it has no key `KEY`. -/
theorem loadEnvVariables_line_end_padding {σ τ : Type} (c : Client σ) (c' : Client τ)
    (file : Str) (pads : List (Str × Str))
    (hread : c.fs.ReadFile c.cfg.AgentConfigFile = .ok file)
    (hlen : pads.length = (Split file '\n').length)
    (hpads : ∀ pad ∈ pads, ∀ ch ∈ pad.1 ++ pad.2, ch = ' ' ∨ ch = '\t' ∨ ch = '\r')
    (hread' : c'.fs.ReadFile c'.cfg.AgentConfigFile =
      .ok (Join (List.zipWith (fun line pad => pad.1 ++ line ++ pad.2) (Split file '\n') pads)
        '\n')) :
    loadEnvVariables c' = loadEnvVariables c ∧
      (∀ (envVariables : GoMap) (k ws1 ws2 v : Str), '=' ∉ k ++ ws1 →
        (∃ ch, k.head? = some ch ∧ isSpace ch = false) →
        (∃ ch, v.getLast? = some ch ∧ isSpace ch = false) →
        loadEnvVariables.line envVariables (k ++ ws1 ++ "=".toList ++ ws2 ++ v) =
          envVariables.set (k ++ ws1) (ws2 ++ v)) ∧
      (∀ (ρ : Type) (c'' : Client ρ) (k ws1 ws2 v : Str), '=' ∉ k ++ ws1 →
        (∃ ch, k.head? = some ch ∧ isSpace ch = false) →
        (∃ ch, v.getLast? = some ch ∧ isSpace ch = false) →
        '\n' ∉ k ++ ws1 ++ ws2 ++ v →
        c''.fs.ReadFile c''.cfg.AgentConfigFile = .ok (k ++ ws1 ++ "=".toList ++ ws2 ++ v) →
        loadEnvVariables c'' = [(k ++ ws1, ws2 ++ v)]) ∧
      (∀ (ρ : Type) (c'' : Client ρ),
        c''.fs.ReadFile c''.cfg.AgentConfigFile = .ok "KEY = v".toList →
        loadEnvVariables c'' = [("KEY ".toList, " v".toList)] ∧
          GoMap.get? (loadEnvVariables c'') "KEY".toList = none) := by
  have hspace : ∀ pad ∈ pads, ∀ ch, ch ∈ pad.1 ∨ ch ∈ pad.2 → isSpace ch = true := by
    intro pad hpad ch hch
    rcases hpads pad hpad ch (List.mem_append.2 hch) with rfl | rfl | rfl <;> decide
  have hnl : ∀ pad ∈ pads, '\n' ∉ pad.1 ∧ '\n' ∉ pad.2 := by
    intro pad hpad
    constructor
    · intro hmem
      rcases hpads pad hpad _ (List.mem_append_left _ hmem) with h | h | h <;>
        exact absurd h (by decide)
    · intro hmem
      rcases hpads pad hpad _ (List.mem_append_right _ hmem) with h | h | h <;>
        exact absurd h (by decide)
  refine ⟨?_, ?_, ?_, ?_⟩
  · rw [loadEnvVariables_of_read c file hread, loadEnvVariables_of_read c' _ hread']
    rw [Split_Join, loadEnvVariables.filterMap_zipWith_pad _ _ hlen hspace]
    · cases hs : Split file '\n' with
      | nil => exact absurd hs (Split_ne_nil file '\n')
      | cons l ls =>
        rw [hs] at hlen
        cases pads with
        | nil => simp at hlen
        | cons pad pads => simp
    · exact zipWith_forall _ (fun line => '\n' ∉ line) (fun pad => '\n' ∉ pad.1 ∧ '\n' ∉ pad.2)
        (fun line => '\n' ∉ line)
        (fun a b ha hb => by
          simp only [List.mem_append, not_or]
          exact ⟨⟨hb.1, ha⟩, hb.2⟩)
        _ _ (Split_not_mem file '\n') hnl
  · intro envVariables k ws1 ws2 v hk hhead hlast
    rw [loadEnvVariables.line_eq, loadEnvVariables.entry_spaced k ws1 ws2 v hk hhead hlast]
  · intro ρ c'' k ws1 ws2 v hk hhead hlast hnl' hread''
    exact loadEnvVariables_of_spaced_line c'' k ws1 ws2 v hk hhead hlast hnl' hread''
  · intro ρ c'' hread''
    have hmap : loadEnvVariables c'' = [("KEY ".toList, " v".toList)] :=
      loadEnvVariables_of_spaced_line c'' "KEY".toList " ".toList " ".toList "v".toList
        (by decide) ⟨'K', rfl, by decide⟩ ⟨'v', rfl, by decide⟩ (by decide) hread''
    rw [hmap]
    exact ⟨rfl, by decide⟩

theorem loadEnvVariables_line_end_padding_witness :
    loadEnvVariables (exampleClientOf [(exampleConfig.AgentConfigFile,
        "A=1\r\n \tB=2\r\n\r".toList)]) =
      [("A".toList, "1".toList), ("B".toList, "2".toList)] ∧
    loadEnvVariables (exampleClientOf [(exampleConfig.AgentConfigFile,
        "KEY = v".toList)]) = [("KEY ".toList, " v".toList)] ∧
    GoMap.get? (loadEnvVariables (exampleClientOf [(exampleConfig.AgentConfigFile,
        "KEY = v".toList)])) "KEY".toList = none :=
  ⟨(loadEnvVariables_line_end_padding
      (exampleClientOf [(exampleConfig.AgentConfigFile, "A=1\nB=2\n".toList)])
      (exampleClientOf [(exampleConfig.AgentConfigFile, "A=1\r\n \tB=2\r\n\r".toList)])
      "A=1\nB=2\n".toList
      [([], "\r".toList), (" \t".toList, "\r".toList), ([], "\r".toList)]
      rfl (by decide) (by decide) rfl).1.trans (by decide),
    (loadEnvVariables_line_end_padding
      (exampleClientOf [(exampleConfig.AgentConfigFile, "A=1\nB=2\n".toList)])
      (exampleClientOf [(exampleConfig.AgentConfigFile, "A=1\r\n \tB=2\r\n\r".toList)])
      "A=1\nB=2\n".toList
      [([], "\r".toList), (" \t".toList, "\r".toList), ([], "\r".toList)]
      rfl (by decide) (by decide) rfl).2.2.2 Unit
      (exampleClientOf [(exampleConfig.AgentConfigFile, "KEY = v".toList)]) rfl⟩

/-! ## Lemmas on the artifact cache -/

end EcsInit
